import Mathlib

/-!
# Verification of the indelhistorian profile / envelope core

This file gives a shallow embedding, in Lean 4, of the parts of the
`indelhistorian` C++ sources that the specification's claims are about:

* the profile automaton (`profile.cpp`, given as `src/unnamed/part_001`):
  the leaf constructor `Profile::Profile(components, alphabet, seq, rowIndex)`,
  `Profile::leftMultiply`, `Profile::addReadyStates`, and the invariant
  checkers `Profile::assertSeqCoordsConsistent` and
  `Profile::assertAllStatesWaitOrReady`;
* the diagonal envelope (`src/src/diagenv.cpp`): `DiagonalEnvelope::initFull`,
  `DiagonalEnvelope::initSparse` and `DiagonalEnvelope::initStorage`;
* the reconstruction driver (`src/src/recon.cpp`): the forward-retry loop of
  `Reconstructor::reconstruct` and the duplicate-name check of
  `Reconstructor::Dataset::prepareRecon`.

C++ headers `profile.h`, `diagenv.h`, `kmer.h` and `fastseq.h` are not part of
the given sources; the few inline helpers they declare (`isNull` / `isReady` /
`isWait`, `minDiagonal` / `maxDiagonal`, `intersects`, k-mer indexing,
tokenisation) are modelled from the specification and are marked
`Modelled from the spec:` in their doc comments.

Conventions of the embedding:

* `std::map` values are association lists (`List (κ × ν)`); a C++ map has
  unique keys, so map entry access coincides with `List.lookup` on them.
* C++ `double` log-probabilities only ever hold exact values in the claims we
  treat: they are embedded as `WithBot ℚ` (`⊥` is `-numeric_limits<double>::infinity()`).
  For `Profile::leftMultiply` the per-token values are represented by their
  exponentials (probabilities, `ℚ`), under which `log_sum_exp` is `+` and
  `log m + x` is `m * x`.
* `vguard<T>` (a guarded `std::vector<T>`) is `List T`; reads use `List.getD`
  (C++ indexing demands the index be in bounds, which theorems hypothesise).
-/

/-! ## Basic types: align paths and sequence coordinates (`alignpath.h`) -/

/-- Log-probability, as stored by the C++ code in a `double`: either a finite
value or `-infinity` (embedded as `⊥`). -/
abbrev LogProb := WithBot ℚ

/-- `typedef size_t AlignRowIndex` from `alignpath.h`. -/
abbrev AlignRowIndex := Nat

/-- `typedef vguard<bool> AlignRowPath` from `alignpath.h`. -/
abbrev AlignRowPath := List Bool

/-- `typedef map<AlignRowIndex,AlignRowPath> AlignPath` from `alignpath.h`,
as an association list. -/
abbrev AlignPath := List (AlignRowIndex × AlignRowPath)

/-- `map<AlignRowIndex,SeqIdx>`: per-row cumulative residue counts. -/
abbrev SeqCoords := List (AlignRowIndex × Nat)

/-- `alignPathResiduesInRow`: the number of residues (true bits) in one row of
an align path. -/
def alignPathResiduesInRow (p : AlignRowPath) : Nat := p.countP (fun b => b)

/-- Row `r` of align path `a`, or the empty row when `a` has no entry for `r`
(a C++ `map` access through `operator[]` default-constructs the row). -/
def pathRow (a : AlignPath) (r : AlignRowIndex) : AlignRowPath := (a.lookup r).getD []

/-- Coordinate of row `r` in `m`, defaulting to `0` (C++ `operator[]`
default-constructs the coordinate). -/
def coordOf (m : SeqCoords) (r : AlignRowIndex) : Nat := (m.lookup r).getD 0

/-! ## The profile data model (`profile.h` / `profile.cpp`) -/

/-- `ProfileTransition`: source and destination state indices, transition
log-weight and optional align path. The default constructor sets
`lpTrans = -infinity`. -/
structure ProfileTransition where
  src : Nat
  dest : Nat
  lpTrans : LogProb
  alignPath : AlignPath
  deriving Repr, DecidableEq

/-- The default-constructed `ProfileTransition()`. -/
def ProfileTransition.null : ProfileTransition := ⟨0, 0, ⊥, []⟩

/-- `ProfileState`, polymorphic in the scalar type `α` of the emission table
`lpAbsorb` (the code stores `LogProb`; `Profile::leftMultiply` is stated over
the exponential representation `ℚ`). A default-constructed state has an empty
`lpAbsorb`, i.e. is a null state. -/
structure ProfileState (α : Type) where
  name : String
  meta : List (String × String)
  inT : List Nat
  nullOut : List Nat
  absorbOut : List Nat
  lpAbsorb : List (List α)
  alignPath : AlignPath
  seqCoords : SeqCoords
  deriving Repr, DecidableEq

/-- The default-constructed `ProfileState()` (a null state). -/
def ProfileState.nullState {α : Type} : ProfileState α := ⟨"", [], [], [], [], [], [], []⟩

/-- `ProfileState(components, alphSize)`: an absorbing-state skeleton whose
emission table is `components` rows of `alphSize` entries, all `-infinity`. -/
def ProfileState.ofDims (components alphSize : Nat) : ProfileState LogProb :=
  { (ProfileState.nullState : ProfileState LogProb) with
    lpAbsorb := List.replicate components (List.replicate alphSize (⊥ : LogProb)) }

/-- Modelled from the spec: `profile.h` is not under `src/`; a state is *null*
iff it has no emission table (`lpAbsorb.empty()`). -/
def ProfileState.isNull {α : Type} (s : ProfileState α) : Bool := s.lpAbsorb.isEmpty

/-- Modelled from the spec: `profile.h` is not under `src/`; per the spec
glossary a *Ready* state is "absorbing-out-only", i.e. it has no null
out-transitions. -/
def ProfileState.isReady {α : Type} (s : ProfileState α) : Bool := s.nullOut.isEmpty

/-- Modelled from the spec: `profile.h` is not under `src/`; per the spec
glossary a *Wait* state is "null-out-only", i.e. it has no absorbing
out-transitions. -/
def ProfileState.isWait {α : Type} (s : ProfileState α) : Bool := s.absorbOut.isEmpty

/-- `Profile`: the DAG of profile states and transitions, plus the bookkeeping
fields copied around by `Profile::addReadyStates`. -/
structure Profile (α : Type) where
  components : Nat
  alphSize : Nat
  name : String
  meta : List (String × String)
  seq : List (AlignRowIndex × List Char)
  state : List (ProfileState α)
  trans : List ProfileTransition
  equivAbsorbState : List (Nat × Nat)
  deriving Repr, DecidableEq

/-- `ProfileState::assertSeqCoordsConsistent (srcCoords, destCoords, transPath, destPath)`
as a boolean check: starting from the source coordinates, add the residue
counts contributed by the transition path and by the destination state's own
path; every row of the destination coordinates must then be present and must
carry exactly the accumulated count. -/
def seqCoordsConsistentCheck (srcCoords destCoords : SeqCoords)
    (transPath destPath : AlignPath) : Bool :=
  destCoords.all (fun sc =>
    (decide (sc.1 ∈ srcCoords.map Prod.fst) ||
     decide (sc.1 ∈ transPath.map Prod.fst) ||
     decide (sc.1 ∈ destPath.map Prod.fst)) &&
    decide (coordOf srcCoords sc.1
              + alignPathResiduesInRow (pathRow transPath sc.1)
              + alignPathResiduesInRow (pathRow destPath sc.1)
            = coordOf destCoords sc.1))

/-- `Profile::assertSeqCoordsConsistent()`: the check above holds for every
transition of the profile, taking the destination state's own align path as
`destPath`. -/
def Profile.seqCoordsOK {α : Type} (p : Profile α) : Bool :=
  p.trans.all (fun t =>
    seqCoordsConsistentCheck
      (p.state.getD t.src ProfileState.nullState).seqCoords
      (p.state.getD t.dest ProfileState.nullState).seqCoords
      t.alignPath
      (p.state.getD t.dest ProfileState.nullState).alignPath)

/-- `Profile::assertAllStatesWaitOrReady()`: every state is Ready or Wait. -/
def Profile.allStatesWaitOrReady {α : Type} (p : Profile α) : Bool :=
  p.state.all (fun s => s.isReady || s.isWait)

/-- Well-formedness of the integer indices a profile carries: every transition
endpoint and every `equivAbsorbState` entry indexes into the state vector.
The C++ code indexes `vguard`s with these values, so they are in range for any
profile the program actually builds. -/
def Profile.wf {α : Type} (p : Profile α) : Prop :=
  (∀ t ∈ p.trans, t.src < p.state.length ∧ t.dest < p.state.length) ∧
  (∀ ab ∈ p.equivAbsorbState, ab.1 < p.state.length ∧ ab.2 < p.state.length)

instance {α : Type} (p : Profile α) : Decidable p.wf := by
  unfold Profile.wf; infer_instance

/-! ## The leaf constructor `Profile::Profile (components, alphabet, seq, rowIndex)` -/

/-- A named sequence (`FastSeq` from `fastseq.h`, reduced to the two fields
the leaf constructor reads). -/
structure FastSeq where
  name : String
  seq : List Char
  deriving Repr, DecidableEq

/-- Modelled from the spec: `Alignment::isWildcard` lives in the missing
`alignpath.cpp`; the spec's distinguished wildcard residue is the character
`*`. -/
def isWildcard (c : Char) : Bool := c = '*'

/-- One component row of the emission table of leaf state `s_{pos+1}`:
`fill(lpa.begin(), lpa.end(), 0)` for a wildcard, otherwise
`lpa[dsq[pos]] = 0` on the all `-infinity` row.  Tokenisation
(`seq.tokens (alphabet)`) maps a residue character to its index in the
alphabet string. -/
def leafEmissionRow (alphabet : List Char) (c : Char) : List LogProb :=
  if isWildcard c then List.replicate alphabet.length (0 : LogProb)
  else (List.replicate alphabet.length (⊥ : LogProb)).set (alphabet.indexOf c) (0 : LogProb)

/-- Leaf state `s_i` (`1 ≤ i ≤ L`, `c` the `i`-th residue character): absorbing,
named `c` followed by `i`, one incoming transition `i-1`, outgoing transition
`i` (absorbing when `i < L`, null when `i = L`), align path one residue column
on the leaf's row, sequence coordinate `i`. -/
def leafInteriorState (components : Nat) (alphabet : List Char) (rowIndex : AlignRowIndex)
    (L i : Nat) (c : Char) : ProfileState LogProb :=
  { name := String.singleton c ++ toString i
    meta := []
    inT := [i - 1]
    nullOut := if i = L then [i] else []
    absorbOut := if i = L then [] else [i]
    lpAbsorb := List.replicate components (leafEmissionRow alphabet c)
    alignPath := [(rowIndex, [true])]
    seqCoords := [(rowIndex, i)] }

/-- The leaf START state: null, coordinate 0, outgoing transition 0 (null when
the sequence is empty, absorbing otherwise). -/
def leafStartState {α : Type} (L : Nat) (rowIndex : AlignRowIndex) : ProfileState α :=
  { (ProfileState.nullState : ProfileState α) with
    name := "START"
    nullOut := if L = 0 then [0] else []
    absorbOut := if L = 0 then [] else [0]
    seqCoords := [(rowIndex, 0)] }

/-- The leaf END state: null, coordinate `L`, incoming transition `L`. -/
def leafEndState {α : Type} (L : Nat) (rowIndex : AlignRowIndex) : ProfileState α :=
  { (ProfileState.nullState : ProfileState α) with
    name := "END"
    inT := [L]
    seqCoords := [(rowIndex, L)] }

/-- The leaf constructor `Profile::Profile (components, alphabet, seq, rowIndex)`:
a linear chain START, `s_1`, ..., `s_L`, END with `L + 1` transitions
`pos → pos + 1` of weight `lpTrans = 0` and empty transition paths. -/
def leafProfile (components : Nat) (alphabet : List Char) (fs : FastSeq)
    (rowIndex : AlignRowIndex) : Profile LogProb :=
  { components := components
    alphSize := alphabet.length
    name := fs.name
    meta := []
    seq := [(rowIndex, fs.seq)]
    state :=
      leafStartState fs.seq.length rowIndex ::
      ((List.range fs.seq.length).map (fun p =>
        leafInteriorState components alphabet rowIndex fs.seq.length (p + 1)
          (fs.seq.getD p ' ')) ++
       [leafEndState fs.seq.length rowIndex])
    trans := (List.range (fs.seq.length + 1)).map
      (fun pos => ⟨pos, pos + 1, (0 : LogProb), []⟩)
    equivAbsorbState := [] }

/-! ## `Profile::leftMultiply` -/

/-- `Profile::leftMultiply (sub)`.  A copy of the profile in which every
non-null state's emission table is recomputed cell by cell:
`prof.state[i].lpAbsorb[cpt][c] = log_sum_exp over d of (log sub[cpt](c,d) + lpAbsorb[cpt][d])`,
for each `cpt < components` and `c, d < alphSize`.  Log-probabilities are
represented here by their exponentials (see the file header), under which
`log_sum_exp` is `+` and `log m + x` is `m * x`, so the cell value is the
matrix-vector product `sum over d of sub[cpt](c,d) * lpAbsorb[cpt][d]`.
Profiles carry emission tables of exactly `components × alphSize` cells
(`ProfileState(components, alphSize)`), the shape this rebuild produces. -/
def leftMultiplyState (sub : List (List (List ℚ))) (components alphSize : Nat)
    (st : ProfileState ℚ) : ProfileState ℚ :=
  if st.isNull then st
  else
    { st with
      lpAbsorb := (List.range components).map (fun cpt =>
        (List.range alphSize).map (fun c =>
          ((List.range alphSize).map (fun d =>
            ((sub.getD cpt []).getD c []).getD d 0 *
              (st.lpAbsorb.getD cpt []).getD d 0)).sum)) }

/-- `Profile::leftMultiply (sub)` proper: the per-state update applied to
every state of a copy of the profile; all other fields are copied. -/
def Profile.leftMultiply (sub : List (List (List ℚ))) (p : Profile ℚ) : Profile ℚ :=
  { p with state := p.state.map (leftMultiplyState sub p.components p.alphSize) }

/-! ## `Profile::addReadyStates` -/

/-- Scatter write: `for s: out[idx[s]] = src[s]`, the second loop of
`Profile::addReadyStates` (the C++ swaps each `profState[s]` into
`prof.state[old2newStateIndex[s]]`; `List.set` ignores out-of-range writes,
which the C++ `vguard` would reject). -/
def scatter {β : Type} (idx : List Nat) (src : List β) (init : List β) : List β :=
  (idx.zip src).foldl (fun acc p => acc.set p.1 p.2) init

/-- Accumulator of the first loop of `Profile::addReadyStates`.
`old2newStateIndex` is kept as `mainMap ++ readyMap`: the C++ preallocates the
first `size()` entries (`mainMap`, written in ascending `s` order) and
`push_back`s one entry for each freshly created Ready state (`readyMap`).
Similarly, `profState` is `mainStates ++ readyStates`: the first `size()`
entries are the (possibly waitified) original states and each fresh Ready
state is appended.  `n` is the new-state counter, `newTrans` the transition
vector (starting as a copy of `trans`, extended by one null transition per
split). -/
structure ARAcc (α : Type) where
  n : Nat
  mainMap : List Nat
  readyMap : List Nat
  mainStates : List (ProfileState α)
  readyStates : List (ProfileState α)
  newTrans : List ProfileTransition
  deriving Repr, DecidableEq

/-- One iteration of the first loop of `Profile::addReadyStates`, processing
state `st` at index `s = acc.mainStates.length` (`N` and `T` are the original
state and transition counts).  A state that is neither Ready nor Wait is
split: the original keeps its null out-transitions plus a new null transition
to a fresh Ready state that inherits the absorbing out-transitions,
the meta data and the sequence coordinates. -/
def arStep {α : Type} (N T : Nat) (acc : ARAcc α) (st : ProfileState α) : ARAcc α :=
  if st.isReady || st.isWait then
    { acc with
      n := acc.n + 1
      mainMap := acc.mainMap ++ [acc.n]
      mainStates := acc.mainStates ++ [st] }
  else
    let sIdx := acc.mainStates.length
    let readyTransIdx := T + acc.readyStates.length
    let oldReadyStateIdx := N + acc.readyStates.length
    let waitSt : ProfileState α :=
      { st with
        name := st.name ++ ";"
        nullOut := st.nullOut ++ [readyTransIdx]
        absorbOut := [] }
    let readySt : ProfileState α :=
      { (ProfileState.nullState : ProfileState α) with
        name := st.name ++ "."
        meta := st.meta
        seqCoords := st.seqCoords
        inT := [readyTransIdx]
        absorbOut := st.absorbOut }
    { n := acc.n + 2
      mainMap := acc.mainMap ++ [acc.n]
      readyMap := acc.readyMap ++ [acc.n + 1]
      mainStates := acc.mainStates ++ [waitSt]
      readyStates := acc.readyStates ++ [readySt]
      newTrans := acc.newTrans ++ [⟨sIdx, oldReadyStateIdx, (0 : LogProb), []⟩] }

/-- The first loop of `Profile::addReadyStates` over the whole state vector. -/
def arFold {α : Type} (N T : Nat) (l : List (ProfileState α))
    (init : ARAcc α) : ARAcc α :=
  l.foldl (arStep N T) init

/-- `Profile::addReadyStates()`.  First loop: walk the states in order,
splitting every state that is neither Ready nor Wait (see `arStep`).  Second
loop: scatter `profState` through `old2newStateIndex` (which interleaves each
fresh Ready state directly after its Wait state) and remap every transition
endpoint and every `equivAbsorbState` entry through `old2newStateIndex`. -/
def Profile.addReadyStates {α : Type} (p : Profile α) : Profile α :=
  let N := p.state.length
  let T := p.trans.length
  let acc := arFold N T p.state ⟨0, [], [], [], [], p.trans⟩
  let old2new := acc.mainMap ++ acc.readyMap
  let profState := acc.mainStates ++ acc.readyStates
  { components := p.components
    alphSize := p.alphSize
    name := p.name
    meta := p.meta
    seq := p.seq
    state := scatter old2new profState
      (List.replicate profState.length ProfileState.nullState)
    trans := acc.newTrans.map (fun t =>
      { t with src := old2new.getD t.src 0, dest := old2new.getD t.dest 0 })
    equivAbsorbState := p.equivAbsorbState.map (fun ab =>
      (old2new.getD ab.1 0, old2new.getD ab.2 0)) }

/-! ## The diagonal envelope (`diagenv.cpp`) -/

/-- Modelled from the spec: `diagenv.h` is not under `src/`; a diagonal `d`
intersects column `j` iff the cell `(i, j)` with `i = d + j` lies in the DP
table, i.e. `0 ≤ d + j ≤ xLen`. -/
def intersectsDiag (xLen : Nat) (j : Nat) (d : Int) : Bool :=
  decide (0 ≤ d + (j : Int)) && decide (d + (j : Int) ≤ (xLen : Int))

/-- `DiagonalEnvelope`: the compute and storage diagonal sets plus the
per-column storage bookkeeping built by `initStorage`. -/
structure DiagonalEnvelope where
  xLen : Nat
  yLen : Nat
  diagonals : List Int
  storageDiagonals : List Int
  storageIndex : List Int
  storageOffset : List Int
  storageSize : List Nat
  cumulStorageSize : List Nat
  totalStorageSize : Nat
  deriving Repr, DecidableEq

/-- Write `v` at signed position `pos` of `l`.  Out-of-range writes are
dropped: the C++ `vguard` write is defined only for in-range positions (with
the spec-modelled diagonal range, halo diagonals beyond `[-yLen, xLen]` would
index `storageIndex` out of range, which C++ leaves undefined). -/
def setAtInt (l : List Int) (pos : Int) (v : Int) : List Int :=
  if 0 ≤ pos then l.set pos.toNat v else l

/-- The single `j` loop of `DiagonalEnvelope::initStorage`, given the
per-column count function `sz`: accumulates `storageSize`, `cumulStorageSize`
(the running total before column `j`) and `totalStorageSize`. -/
def storageFold (sz : Nat → Nat) (yLen : Nat) : List Nat × List Nat × Nat :=
  (List.range (yLen + 1)).foldl
    (fun acc j => (acc.1 ++ [sz j], acc.2.1 ++ [acc.2.2], acc.2.2 + sz j))
    ([], [], 0)

/-- Sorted insertion without duplicates: the effect of `std::set::insert` on
the sorted element sequence of a `std::set`. -/
def insertSortedDedup {γ : Type} [LinearOrder γ] (x : γ) : List γ → List γ
  | [] => [x]
  | y :: rest =>
    if x < y then x :: y :: rest
    else if x = y then y :: rest
    else y :: insertSortedDedup x rest

/-- The sorted element sequence of the `std::set` holding the elements of
`l`. -/
def sortedDedup {γ : Type} [LinearOrder γ] (l : List γ) : List γ :=
  l.foldr insertSortedDedup []

/-- Inserting every element of `adds` into the `std::set` represented by
`s`. -/
def unionSorted {γ : Type} [LinearOrder γ] (s adds : List γ) : List γ :=
  adds.foldr insertSortedDedup s

/-- `DiagonalEnvelope::initStorage()`: the storage diagonals are the compute
diagonals together with a one-diagonal halo (`d - 1`, `d`, `d + 1` for every
compute diagonal `d`, collected in a `std::set`, i.e. sorted and
deduplicated).  `storageSize[j]` counts the storage diagonals intersecting
column `j` (the span `storageBeginIntersecting(j) .. storageEndIntersecting(j)`,
modelled from the spec contract as a filter of the sorted vector),
`cumulStorageSize[j]` is the running total before column `j`, and
`storageOffset[j]` is the `storageIndex` slot of the first intersecting
storage diagonal. -/
def initStorage (xLen yLen : Nat) (diagonals : List Int) : DiagonalEnvelope :=
  let storage := sortedDedup (diagonals.flatMap (fun d => [d, d - 1, d + 1]))
  let storageIdx := (List.range storage.length).foldl
    (fun acc n => setAtInt acc ((yLen : Int) + storage.getD n 0) (n : Int))
    (List.replicate (xLen + yLen + 1) (-1 : Int))
  let sz : Nat → Nat := fun j => (storage.filter (intersectsDiag xLen j)).length
  let arrays := storageFold sz yLen
  { xLen := xLen
    yLen := yLen
    diagonals := diagonals
    storageDiagonals := storage
    storageIndex := storageIdx
    storageOffset := (List.range (yLen + 1)).map (fun j =>
      match storage.filter (intersectsDiag xLen j) with
      | [] => (-1 : Int)
      | b :: _ => storageIdx.getD ((yLen : Int) + b).toNat (-1))
    storageSize := arrays.1
    cumulStorageSize := arrays.2.1
    totalStorageSize := arrays.2.2 }

/-- Modelled from the spec: `DiagonalEnvelope::minDiagonal()` is declared in
the missing `diagenv.h`; per the spec the full envelope holds "all diagonals
d in [-yLen, xLen]", so `minDiagonal = -yLen`. -/
def minDiagonal (yLen : Nat) : Int := -(yLen : Int)

/-- Modelled from the spec: `DiagonalEnvelope::maxDiagonal()` is declared in
the missing `diagenv.h`; per the spec the full envelope holds "all diagonals
d in [-yLen, xLen]", so `maxDiagonal = xLen`. -/
def maxDiagonal (xLen : Nat) : Int := (xLen : Int)

/-- The ascending list of diagonals pushed by `initFull`'s loop
`for (d = minDiagonal(); d <= maxDiagonal(); ++d)`. -/
def fullDiagonals (xLen yLen : Nat) : List Int :=
  (List.range (xLen + yLen + 1)).map (fun (k : Nat) => (k : Int) - (yLen : Int))

/-- `DiagonalEnvelope::initFull()`: every diagonal, then `initStorage`. -/
def initFull (xLen yLen : Nat) : DiagonalEnvelope :=
  initStorage xLen yLen (fullDiagonals xLen yLen)

/-- `#define MIN_KMERS_FOR_SPARSE_ENVELOPE 2` from `diagenv.cpp`. -/
def minKmersForSparseEnvelope : Nat := 2

/-- The ascending list of integers `a, a+1, ..., b` (empty when `b < a`). -/
def intRangeList (a b : Int) : List Int :=
  (List.range (b + 1 - a).toNat).map (fun (k : Nat) => a + (k : Int))

/-- The length-`k` token window of `tok` starting at position `i`
(`makeKmer (kmerLen, xTok.begin() + i, alphabetSize)` identifies a k-mer with
its token window). -/
def kmerWindow (tok : List (Option Nat)) (k i : Nat) : List (Option Nat) :=
  (tok.drop i).take k

/-- `kmerValid`: all `k` tokens of the window are valid (an unvalidated token
sequence marks characters outside the alphabet as invalid). -/
def kmerWindowValid (tok : List (Option Nat)) (k i : Nat) : Bool :=
  (kmerWindow tok k i).all Option.isSome

/-- Modelled from the spec: `KmerIndex` (`kmer.h`) is not under `src/`; it
maps each valid length-`k` token string of `y` to its positions.  The k-mer
seeding scan of `initSparse` therefore yields, for each valid k-mer of `x` at
position `i` and each position `j` of the same k-mer in `y`, one match on
diagonal `i - j`; `diagMatches` is the resulting multiset of diagonals
(`diagKmerCount[d]` is its multiplicity of `d`). -/
def diagMatches (xTok yTok : List (Option Nat)) (k : Nat) : List Int :=
  (List.range (xTok.length - k + 1)).flatMap (fun i =>
    if kmerWindowValid xTok k i then
      (List.range (yTok.length - k + 1)).filterMap (fun j =>
        if kmerWindow yTok k j = kmerWindow xTok k i then
          some ((i : Int) - (j : Int))
        else none)
    else [])

/-- `countDistrib`, iterated from the highest count down: the distinct match
counts in descending order, each with the ascending list of diagonals having
that count (both `std::map` and `std::set` iterate in key order; the loop
walks `countDistrib` with `crbegin`). -/
def countDistribDesc (ms : List Int) : List (Nat × List Int) :=
  (sortedDedup (ms.map (fun d => ms.count d))).reverse.map
    (fun c => (c, sortedDedup (ms.filter (fun d => ms.count d = c))))

/-- The loop state of the bucket-absorption loop of `initSparse`. -/
structure AbsorbState where
  diags : List Int
  storageDiags : List Int
  nPastThreshold : Nat
  threshold : Nat
  foundThreshold : Bool
  deriving Repr, DecidableEq

/-- Absorbing one count bucket: every seed diagonal contributes the band
`[max(minDiagonal, seed - bandSize/2), min(maxDiagonal, seed + bandSize/2)]`
to the compute set and the one-wider band to the storage set, and bumps
`nPastThreshold`. -/
def absorbBucket (minD maxD : Int) (halfBand : Nat) (diags storage : List Int)
    (nPast : Nat) (bucket : List Int) : List Int × List Int × Nat :=
  bucket.foldl
    (fun acc seed =>
      let dMin := max minD (seed - (halfBand : Int))
      let dMax := min maxD (seed + (halfBand : Int))
      (unionSorted acc.1 (intRangeList dMin dMax),
       unionSorted acc.2.1 (intRangeList (dMin - 1) (dMax + 1)),
       acc.2.2 + 1))
    (diags, storage, nPast)

/-- The bucket-absorption loop of `initSparse`, over the descending count
buckets.  With a fixed threshold (`kmerThreshold ≥ 0`) it stops at the first
bucket whose count falls below the threshold; in memory-bound mode
(`kmerThreshold < 0`) it stops just before the storage set would reach
`maxSize / diagSize` diagonals, recording the last admitted count as the
threshold. -/
def absorbLoop (kmerThreshold : Int) (maxSize diagSize : Nat) (minD maxD : Int)
    (halfBand : Nat) : List (Nat × List Int) → AbsorbState → AbsorbState
  | [], st => st
  | (cnt, bucket) :: rest, st =>
    if 0 ≤ kmerThreshold ∧ (cnt : Int) < kmerThreshold then st
    else
      let m := absorbBucket minD maxD halfBand st.diags st.storageDiags
        st.nPastThreshold bucket
      if kmerThreshold < 0 ∧ maxSize ≤ m.2.1.length * diagSize then st
      else
        absorbLoop kmerThreshold maxSize diagSize minD maxD halfBand rest
          { diags := m.1
            storageDiags := m.2.1
            nPastThreshold := m.2.2
            threshold := if kmerThreshold < 0 then cnt else st.threshold
            foundThreshold := if kmerThreshold < 0 then true else st.foundThreshold }

/-- The absorption phase of `DiagonalEnvelope::initSparse`, starting from the
compute and storage sets `{0}` ("always add the zeroth diagonal to ensure at
least one path exists"), threshold `UINT_MAX` (or the fixed `kmerThreshold`
when one is configured) and `diagSize = min(xLen, yLen) * cellSize`. -/
def sparseAbsorbState (xTok yTok : List (Option Nat)) (kmerLen bandSize : Nat)
    (kmerThreshold : Int) (cellSize maxSize : Nat) : AbsorbState :=
  absorbLoop kmerThreshold maxSize (min xTok.length yTok.length * cellSize)
    (minDiagonal yTok.length) (maxDiagonal xTok.length) (bandSize / 2)
    (countDistribDesc (diagMatches xTok yTok kmerLen))
    { diags := [0]
      storageDiags := [0]
      nPastThreshold := 0
      threshold := if 0 ≤ kmerThreshold then kmerThreshold.toNat else 4294967295
      foundThreshold := decide (0 ≤ kmerThreshold) }

/-- `DiagonalEnvelope::initSparse (yKmerIndex, bandSize, kmerThreshold, cellSize, maxSize)`.
With a fixed k-mer threshold, sequences shorter than
`MIN_KMERS_FOR_SPARSE_ENVELOPE * (kmerLen + kmerThreshold)` get the full
envelope; in memory-bound mode (`kmerThreshold < 0`), a DP table below the
memory budget gets the full envelope.  Otherwise the k-mer seeded absorption
runs and the resulting compute diagonals (ascending, as iterated from the
`std::set`) are handed to `initStorage`. -/
def initSparse (xTok yTok : List (Option Nat)) (kmerLen bandSize : Nat)
    (kmerThreshold : Int) (cellSize maxSize : Nat) : DiagonalEnvelope :=
  let xLen := xTok.length
  let yLen := yTok.length
  if 0 ≤ kmerThreshold ∧
      (xLen < minKmersForSparseEnvelope * (kmerLen + kmerThreshold.toNat) ∨
       yLen < minKmersForSparseEnvelope * (kmerLen + kmerThreshold.toNat)) then
    initFull xLen yLen
  else if kmerThreshold < 0 ∧ xLen * yLen * cellSize < maxSize then
    initFull xLen yLen
  else
    initStorage xLen yLen
      ((sparseAbsorbState xTok yTok kmerLen bandSize kmerThreshold cellSize
          maxSize).diags)

/-! ## The forward-retry loop of `Reconstructor::reconstruct` (`recon.cpp`) -/

/-- Outcome of one iteration of the guide-band retry loop. -/
inductive RetryOutcome where
  /-- `break`: the Forward matrix has non-zero likelihood; reconstruction
  proceeds with the band that produced it. -/
  | done (maxDist : Int)
  /-- The Forward matrix is deleted and rebuilt with a new guide band. -/
  | retry (newMaxDist : Int)
  /-- `Abort ("Zero forward likelihood even in the absence of guide alignment
  constraints - this is not good")`. -/
  | fatalZeroLikelihood
  deriving Repr, DecidableEq

/-- One iteration of the `while (true)` retry loop of
`Reconstructor::reconstruct`: exit when `lpEnd > -infinity`; abort fatally
when the likelihood is zero without a guide constraint (`maxDist < 0`);
disable the guide constraint when the doubled band would exceed the guide
alignment's column count; otherwise double the band. -/
def reconRetryStep (lpEnd : LogProb) (maxDist : Int) (guideCols : Nat) : RetryOutcome :=
  if ⊥ < lpEnd then .done maxDist
  else if maxDist < 0 then .fatalZeroLikelihood
  else if maxDist * 2 > (guideCols : Int) then .retry (-1)
  else .retry (maxDist * 2)

/-! ## The duplicate-name check of `Reconstructor::Dataset::prepareRecon` -/

/-- The `seqIndex` loop of `prepareRecon`: insert each sequence name with its
index, failing on the `Assert` if the name is already present.  The C++
`Assert` aborts the dataset before any reconstruction is attempted; the
embedding returns the diagnostic instead. -/
def buildSeqIndex : List String → Nat → List (String × Nat) →
    Except String (List (String × Nat))
  | [], _, m => .ok m
  | nm :: rest, n, m =>
    if (m.lookup nm).isSome then .error ("Duplicate sequence name " ++ nm)
    else buildSeqIndex rest (n + 1) (m ++ [(nm, n)])

/-- `Reconstructor::Dataset::prepareRecon`, restricted to the `seqIndex`
construction (`for (n = 0; n < seqs.size(); ++n)`). -/
def prepareReconSeqIndex (names : List String) : Except String (List (String × Nat)) :=
  buildSeqIndex names 0 []

/-! ## Concrete inputs used by witnesses and counterexamples -/

/-- A concrete absorbing state used by witnesses. -/
def witAbsState : ProfileState ℚ :=
  { name := "A", meta := [], inT := [0], nullOut := [], absorbOut := [1],
    lpAbsorb := [[5, 7]], alignPath := [(0, [true])], seqCoords := [(0, 1)] }

/-- A concrete three-state profile over `ℚ` used by witnesses. -/
def witLmProfile : Profile ℚ :=
  { components := 1, alphSize := 2, name := "p", meta := [], seq := [],
    state := [
      { name := "S", meta := [], inT := [], nullOut := [], absorbOut := [0],
        lpAbsorb := [], alignPath := [], seqCoords := [(0, 0)] },
      witAbsState,
      { name := "E", meta := [], inT := [1], nullOut := [], absorbOut := [],
        lpAbsorb := [], alignPath := [], seqCoords := [(0, 1)] } ],
    trans := [⟨0, 1, 0, []⟩, ⟨1, 2, 0, []⟩],
    equivAbsorbState := [] }

/-- A concrete one-component substitution matrix used by witnesses. -/
def witLmSub : List (List (List ℚ)) := [[[1, 2], [3, 4]]]

/-- A concrete profile with a state that is neither Wait nor Ready, used by
witnesses. -/
def witSplitProfile : Profile ℚ :=
  { components := 1, alphSize := 1, name := "m", meta := [], seq := [],
    state := [
      { name := "S", meta := [], inT := [], nullOut := [0], absorbOut := [1],
        lpAbsorb := [], alignPath := [], seqCoords := [(0, 0)] },
      { name := "A", meta := [], inT := [1], nullOut := [2], absorbOut := [],
        lpAbsorb := [[1]], alignPath := [(0, [true])], seqCoords := [(0, 1)] },
      { name := "E", meta := [], inT := [0, 2], nullOut := [], absorbOut := [],
        lpAbsorb := [], alignPath := [], seqCoords := [(0, 1)] } ],
    trans := [⟨0, 2, 0, [(0, [true])]⟩, ⟨0, 1, 0, []⟩, ⟨1, 2, 0, []⟩],
    equivAbsorbState := [(1, 1)] }

/-- Eight pairwise distinct residue tokens, used by witnesses. -/
def witDistinctTok : List (Option Nat) :=
  [some 0, some 1, some 2, some 3, some 4, some 5, some 6, some 7]

/-- Invariant of the first loop of `Profile::addReadyStates` after processing
the states `l`: lengths and freshness of the index maps, the Wait-or-Ready
property of all produced states, preservation of each state's coordinates and
align path, and the shape of the appended Wait-to-Ready transitions. -/
structure ARSpec {α : Type} (N T : Nat) (tr0 : List ProfileTransition)
    (l : List (ProfileState α)) (acc : ARAcc α) : Prop where
  mainStatesLen : acc.mainStates.length = l.length
  mainMapLen : acc.mainMap.length = l.length
  readyMapLen : acc.readyMap.length = acc.readyStates.length
  nVal : acc.n = l.length + acc.readyStates.length
  mapsNodup : (acc.mainMap ++ acc.readyMap).Nodup
  mapsBound : ∀ v ∈ acc.mainMap ++ acc.readyMap, v < acc.n
  statesWR : ∀ st ∈ acc.mainStates ++ acc.readyStates, st.isWait || st.isReady
  mainFrame : ∀ s, s < l.length →
    (acc.mainStates.getD s ProfileState.nullState).seqCoords =
      (l.getD s ProfileState.nullState).seqCoords ∧
    (acc.mainStates.getD s ProfileState.nullState).alignPath =
      (l.getD s ProfileState.nullState).alignPath
  transSpec : ∃ extra, acc.newTrans = tr0 ++ extra ∧
    extra.length = acc.readyStates.length ∧
    ∀ k, k < extra.length → ∃ s, s < l.length ∧
      extra.getD k ProfileTransition.null = ⟨s, N + k, (0 : LogProb), []⟩ ∧
      (acc.readyStates.getD k ProfileState.nullState).seqCoords =
        (l.getD s ProfileState.nullState).seqCoords ∧
      (acc.readyStates.getD k ProfileState.nullState).alignPath = []

/-! ## General association-list lemmas -/

theorem lookup_mem {α β : Type} [BEq α] [LawfulBEq α] {l : List (α × β)} {a : α} {v : β}
    (h : l.lookup a = some v) : (a, v) ∈ l := by
  induction l with
  | nil => simp [List.lookup] at h
  | cons p rest ih =>
    rw [List.lookup] at h
    by_cases hpa : a == p.1
    · rw [hpa] at h
      simp at h
      have hap : a = p.1 := eq_of_beq hpa
      cases p
      subst hap h
      exact List.mem_cons_self _ _
    · rw [Bool.of_not_eq_true hpa] at h
      right
      exact ih h

theorem lookup_isSome_iff {α β : Type} [BEq α] [LawfulBEq α] (l : List (α × β)) (a : α) :
    (l.lookup a).isSome ↔ a ∈ l.map Prod.fst := by
  induction l with
  | nil => simp [List.lookup]
  | cons p rest ih =>
    rw [List.lookup]
    by_cases hpa : a == p.1
    · have : a = p.1 := eq_of_beq hpa
      rw [hpa]
      simp [this]
    · have h2 : ¬ a = p.1 := by simpa using hpa
      rw [Bool.of_not_eq_true hpa]
      simp [ih, h2]

theorem lookup_append_left {α β : Type} [BEq α] [LawfulBEq α] {l₁ : List (α × β)}
    (l₂ : List (α × β)) {a : α} (h : (l₁.lookup a).isSome) :
    (l₁ ++ l₂).lookup a = l₁.lookup a := by
  induction l₁ with
  | nil => simp at h
  | cons p rest ih =>
    rw [List.cons_append, List.lookup, List.lookup]
    by_cases hpa : a == p.1
    · rw [hpa]
    · rw [Bool.of_not_eq_true hpa]
      rw [List.lookup, Bool.of_not_eq_true hpa] at h
      exact ih h

theorem lookup_append_right {α β : Type} [BEq α] [LawfulBEq α] {l₁ : List (α × β)}
    (l₂ : List (α × β)) {a : α} (h : a ∉ l₁.map Prod.fst) :
    (l₁ ++ l₂).lookup a = l₂.lookup a := by
  induction l₁ with
  | nil => simp
  | cons p rest ih =>
    rw [List.cons_append, List.lookup]
    have hne : ¬ a = p.1 := by
      intro hh; exact h (by simp [hh])
    have : (a == p.1) = false := beq_eq_false_iff_ne.mpr hne
    rw [this]
    exact ih (fun hm => h (by simp at hm ⊢; right; exact hm))

theorem snd_nodup_inj {α β : Type} {l : List (α × β)} (h : (l.map Prod.snd).Nodup)
    {a b : α} {k : β} (ha : (a, k) ∈ l) (hb : (b, k) ∈ l) : a = b := by
  induction l with
  | nil => simp at ha
  | cons p rest ih =>
    rw [List.map_cons, List.nodup_cons] at h
    rcases List.mem_cons.mp ha with ha1 | ha2 <;> rcases List.mem_cons.mp hb with hb1 | hb2
    · rw [← ha1] at hb1; exact (congrArg Prod.fst hb1).symm
    · exfalso
      apply h.1
      have hk : k = p.2 := congrArg Prod.snd ha1
      rw [← hk]
      exact List.mem_map_of_mem Prod.snd hb2
    · exfalso
      apply h.1
      have hk : k = p.2 := congrArg Prod.snd hb1
      rw [← hk]
      exact List.mem_map_of_mem Prod.snd ha2
    · exact ih h.2 ha2 hb2

/-! ## Lemmas about `buildSeqIndex` -/

/-- When all keys are fresh, the index build succeeds, indexes every name in
order, and extends the accumulated map. -/
theorem buildSeqIndex_ok (rest : List String) (n : Nat) (m : List (String × Nat))
    (h : (m.map Prod.fst ++ rest).Nodup) :
    ∃ mf, buildSeqIndex rest n m = .ok mf ∧
      mf.map Prod.fst = m.map Prod.fst ++ rest ∧
      mf.map Prod.snd = m.map Prod.snd ++ List.range' n rest.length ∧
      (∀ a, (m.lookup a).isSome → mf.lookup a = m.lookup a) ∧
      (∀ i, i < rest.length → mf.lookup (rest.getD i "") = some (n + i)) := by
  induction rest generalizing n m with
  | nil =>
    refine ⟨m, rfl, by simp, by simp, fun a _ => rfl, by simp⟩
  | cons nm tl ih =>
    have hnm : nm ∉ m.map Prod.fst := by
      intro hmem
      rw [List.nodup_append] at h
      exact h.2.2 hmem (by simp)
    have hlook : ¬ (m.lookup nm).isSome := by
      rw [lookup_isSome_iff]; exact hnm
    rw [buildSeqIndex, if_neg hlook]
    have hkeys : ((m ++ [(nm, n)]).map Prod.fst ++ tl).Nodup := by
      have : (m.map Prod.fst ++ nm :: tl) = ((m ++ [(nm, n)]).map Prod.fst ++ tl) := by simp
      rwa [this] at h
    obtain ⟨mf, hok, hfst, hsnd, hold, hnew⟩ := ih (n + 1) (m ++ [(nm, n)]) hkeys
    refine ⟨mf, hok, ?_, ?_, ?_, ?_⟩
    · rw [hfst]; simp
    · rw [hsnd]; simp [List.range'_succ]
    · intro a ha
      rw [hold a (by rw [lookup_append_left [(nm,n)] ha]; exact ha)]
      exact lookup_append_left [(nm,n)] ha
    · intro i hi
      match i with
      | 0 =>
        simp only [List.getD_cons_zero]
        rw [hold nm (by rw [lookup_append_right _ hnm]; simp [List.lookup]),
            lookup_append_right _ hnm]
        simp [List.lookup]
      | (j+1) =>
        simp only [List.getD_cons_succ]
        have := hnew j (by simpa using hi)
        rw [this]
        congr 1
        omega

/-- A duplicate name makes the index build fail with the duplicate-name
diagnostic. -/
theorem buildSeqIndex_error (rest : List String) (n : Nat) (m : List (String × Nat))
    (hm : (m.map Prod.fst).Nodup) (h : ¬ (m.map Prod.fst ++ rest).Nodup) :
    ∃ nm, buildSeqIndex rest n m = .error ("Duplicate sequence name " ++ nm) := by
  induction rest generalizing n m with
  | nil => exact absurd (by simpa using hm) h
  | cons nm tl ih =>
    by_cases hdup : (m.lookup nm).isSome
    · exact ⟨nm, by rw [buildSeqIndex, if_pos hdup]⟩
    · rw [buildSeqIndex, if_neg hdup]
      have hnm : nm ∉ m.map Prod.fst := by
        rw [← lookup_isSome_iff]; exact hdup
      apply ih
      · have : (m ++ [(nm, n)]).map Prod.fst = m.map Prod.fst ++ [nm] := by simp
        rw [this, List.nodup_append]
        refine ⟨hm, by simp, ?_⟩
        intro x hx hx2
        simp at hx2
        rw [hx2] at hx
        exact hnm hx
      · intro hnd
        apply h
        have : ((m ++ [(nm, n)]).map Prod.fst ++ tl) = (m.map Prod.fst ++ nm :: tl) := by simp
        rwa [this] at hnd

/-! ## Claim theorems C9 and C10 -/

/-- Claim C9: during reconstruction at an internal node, if the Forward matrix
yields `lpEnd = -infinity` while a guide-alignment band `maxDist ≥ 0` is
active, the driver retries with the band doubled; when the doubled band would
exceed the guide alignment's column count, it instead disables the guide
constraint (`maxDist = -1`) and retries; if `lpEnd = -infinity` with no guide
constraint it aborts with a fatal zero-likelihood error; and the loop exits
normally exactly when `lpEnd > -infinity`. -/
theorem claim_C9_forward_retry (lpEnd : LogProb) (maxDist : Int) (guideCols : Nat) :
    (reconRetryStep lpEnd maxDist guideCols = .done maxDist ↔ ⊥ < lpEnd) ∧
    (lpEnd = ⊥ → maxDist < 0 →
      reconRetryStep lpEnd maxDist guideCols = .fatalZeroLikelihood) ∧
    (lpEnd = ⊥ → 0 ≤ maxDist → (guideCols : Int) < maxDist * 2 →
      reconRetryStep lpEnd maxDist guideCols = .retry (-1)) ∧
    (lpEnd = ⊥ → 0 ≤ maxDist → maxDist * 2 ≤ (guideCols : Int) →
      reconRetryStep lpEnd maxDist guideCols = .retry (maxDist * 2)) := by
  unfold reconRetryStep
  refine ⟨?_, ?_, ?_, ?_⟩
  · constructor
    · intro h
      by_contra hlt
      rw [if_neg hlt] at h
      split_ifs at h
    · intro h
      rw [if_pos h]
  · intro hbot hneg
    have : ¬ ⊥ < lpEnd := by rw [hbot]; exact lt_irrefl ⊥
    rw [if_neg this, if_pos hneg]
  · intro hbot hge hcols
    have h1 : ¬ ⊥ < lpEnd := by rw [hbot]; exact lt_irrefl ⊥
    have h2 : ¬ maxDist < 0 := not_lt.mpr hge
    rw [if_neg h1, if_neg h2, if_pos (by exact hcols)]
  · intro hbot hge hcols
    have h1 : ¬ ⊥ < lpEnd := by rw [hbot]; exact lt_irrefl ⊥
    have h2 : ¬ maxDist < 0 := not_lt.mpr hge
    have h3 : ¬ maxDist * 2 > (guideCols : Int) := not_lt.mpr hcols
    rw [if_neg h1, if_neg h2, if_neg h3]

/-- Witness for C9 at concrete iterations: band 3 doubles to 6 under a
10-column guide; band 6 would exceed 10 columns so the guide is disabled;
`maxDist = -1` with zero likelihood is fatal; finite `lpEnd` exits the loop. -/
theorem claim_C9_forward_retry_witness :
    (((⊥ : LogProb) = ⊥) ∧ (0 : Int) ≤ 3 ∧ (3 : Int) * 2 ≤ ((10 : Nat) : Int) ∧
      reconRetryStep ⊥ 3 10 = .retry 6) ∧
    (((⊥ : LogProb) = ⊥) ∧ ((10 : Nat) : Int) < (6 : Int) * 2 ∧
      reconRetryStep ⊥ 6 10 = .retry (-1)) ∧
    (((⊥ : LogProb) = ⊥) ∧ (-1 : Int) < 0 ∧
      reconRetryStep ⊥ (-1) 10 = .fatalZeroLikelihood) ∧
    ((⊥ : LogProb) < (0 : ℚ) ∧ reconRetryStep ((0 : ℚ) : LogProb) 3 10 = .done 3) :=
  ⟨⟨rfl, by decide, by decide, (claim_C9_forward_retry ⊥ 3 10).2.2.2 rfl (by decide) (by decide)⟩,
   ⟨rfl, by decide, (claim_C9_forward_retry ⊥ 6 10).2.2.1 rfl (by decide) (by decide)⟩,
   ⟨rfl, by decide, (claim_C9_forward_retry ⊥ (-1) 10).2.1 rfl (by decide)⟩,
   ⟨bot_lt_iff_ne_bot.mpr (by simp), (claim_C9_forward_retry ((0:ℚ) : LogProb) 3 10).1.mpr
      (bot_lt_iff_ne_bot.mpr (by simp))⟩⟩

/-- Claim C10: dataset preparation rejects duplicate sequence names; with
duplicate names `prepareRecon` fails with a "Duplicate sequence name" error,
otherwise it builds an injective name-to-index map covering every sequence. -/
theorem claim_C10_duplicate_names (names : List String) :
    ((∃ nm, prepareReconSeqIndex names = .error ("Duplicate sequence name " ++ nm)) ↔
      ¬ names.Nodup) ∧
    (names.Nodup →
      ∃ m, prepareReconSeqIndex names = .ok m ∧
        (∀ i, i < names.length → m.lookup (names.getD i "") = some i) ∧
        (∀ a b k, m.lookup a = some k → m.lookup b = some k → a = b)) := by
  constructor
  · constructor
    · rintro ⟨nm, herr⟩ hnd
      obtain ⟨mf, hok, -⟩ := buildSeqIndex_ok names 0 [] (by simpa using hnd)
      rw [prepareReconSeqIndex] at herr
      rw [hok] at herr
      exact Except.noConfusion herr
    · intro hnd
      exact buildSeqIndex_error names 0 [] (by simp) (by simpa using hnd)
  · intro hnd
    obtain ⟨mf, hok, hfst, hsnd, -, hnew⟩ := buildSeqIndex_ok names 0 [] (by simpa using hnd)
    refine ⟨mf, hok, ?_, ?_⟩
    · intro i hi
      simpa using hnew i hi
    · intro a b k hka hkb
      have hvals : (mf.map Prod.snd).Nodup := by
        rw [hsnd]
        simpa using List.nodup_range' (s := 0) (n := names.length)
      exact snd_nodup_inj hvals (lookup_mem hka) (lookup_mem hkb)

/-- Witness for C10: the two-name dataset `["a", "b"]` has no duplicates and
gets an index map; the dataset `["a", "b", "a"]` fails with the duplicate-name
diagnostic. -/
theorem claim_C10_duplicate_names_witness :
    (["a", "b"].Nodup ∧
      ∃ m, prepareReconSeqIndex ["a", "b"] = .ok m ∧
        (∀ i, i < (["a", "b"] : List String).length →
          m.lookup ((["a", "b"] : List String).getD i "") = some i) ∧
        (∀ a b k, m.lookup a = some k → m.lookup b = some k → a = b)) ∧
    (¬ (["a", "b", "a"] : List String).Nodup ∧
      ∃ nm, prepareReconSeqIndex ["a", "b", "a"] =
        .error ("Duplicate sequence name " ++ nm)) :=
  ⟨⟨by decide, (claim_C10_duplicate_names ["a", "b"]).2 (by decide)⟩,
   ⟨by decide, (claim_C10_duplicate_names ["a", "b", "a"]).1.mpr (by decide)⟩⟩

/-! ## Lemmas about the leaf profile -/

theorem getD_map_range {β : Type} (f : Nat → β) (L n : Nat) (d : β) (h : n < L) :
    ((List.range L).map f).getD n d = f n := by
  rw [List.getD_eq_getElem?_getD, List.getElem?_map, List.getElem?_range h]
  rfl

theorem getD_replicate {β : Type} {n i : Nat} (v d : β) (h : i < n) :
    (List.replicate n v).getD i d = v := by
  rw [List.getD_eq_getElem?_getD, List.getElem?_replicate, if_pos h]
  rfl

theorem getD_set_self {β : Type} {l : List β} {i : Nat} (v d : β) (h : i < l.length) :
    (l.set i v).getD i d = v := by
  rw [List.getD_eq_getElem?_getD, List.getElem?_set_self (by simpa using h)]
  rfl

theorem getD_set_ne {β : Type} {l : List β} {i j : Nat} (v d : β) (h : i ≠ j) :
    (l.set i v).getD j d = l.getD j d := by
  rw [List.getD_eq_getElem?_getD, List.getElem?_set_ne h, List.getD_eq_getElem?_getD]

/-- The states of the leaf chain, by index. -/
theorem leafProfile_state_getD (components : Nat) (alphabet : List Char) (fs : FastSeq)
    (row : AlignRowIndex) :
    ((leafProfile components alphabet fs row).state.getD 0 ProfileState.nullState =
      leafStartState fs.seq.length row) ∧
    (∀ i, 1 ≤ i → i ≤ fs.seq.length →
      (leafProfile components alphabet fs row).state.getD i ProfileState.nullState =
        leafInteriorState components alphabet row fs.seq.length i (fs.seq.getD (i - 1) ' ')) ∧
    ((leafProfile components alphabet fs row).state.getD (fs.seq.length + 1)
        ProfileState.nullState = leafEndState fs.seq.length row) := by
  refine ⟨rfl, ?_, ?_⟩
  · intro i h1 h2
    rw [leafProfile]
    obtain ⟨n, rfl⟩ : ∃ n, i = n + 1 := ⟨i - 1, by omega⟩
    simp only [List.getD_cons_succ]
    rw [List.getD_append _ _ _ _ (by simp; omega)]
    rw [getD_map_range _ _ _ _ (by omega)]
    simp
  · rw [leafProfile]
    simp only [List.getD_cons_succ]
    have hlen : ((List.range fs.seq.length).map (fun p =>
        leafInteriorState components alphabet row fs.seq.length (p + 1)
          (fs.seq.getD p ' '))).length = fs.seq.length := by simp
    rw [List.getD_eq_getElem?_getD, List.getElem?_append_right (by rw [hlen]),
      hlen]
    simp

/-- The transitions of the leaf chain, by index. -/
theorem leafProfile_trans_getD (components : Nat) (alphabet : List Char) (fs : FastSeq)
    (row : AlignRowIndex) (pos : Nat) (h : pos ≤ fs.seq.length) :
    (leafProfile components alphabet fs row).trans.getD pos ProfileTransition.null =
      ⟨pos, pos + 1, (0 : LogProb), []⟩ := by
  rw [leafProfile]
  exact getD_map_range _ _ _ _ (by omega)

/-- C1 part one: the leaf constructor produces a profile whose sequence
coordinates are consistent on every transition. -/
theorem leafProfile_seqCoordsOK (components : Nat) (alphabet : List Char) (fs : FastSeq)
    (row : AlignRowIndex) :
    (leafProfile components alphabet fs row).seqCoordsOK = true := by
  rw [Profile.seqCoordsOK, List.all_eq_true]
  intro t ht
  have hmem : t ∈ (List.range (fs.seq.length + 1)).map
      (fun pos => (⟨pos, pos + 1, (0 : LogProb), []⟩ : ProfileTransition)) := ht
  simp only [List.mem_map, List.mem_range] at hmem
  obtain ⟨pos, hpos, rfl⟩ := hmem
  obtain ⟨hstart, hmid, hend⟩ := leafProfile_state_getD components alphabet fs row
  have hsrc : ((leafProfile components alphabet fs row).state.getD pos
      ProfileState.nullState).seqCoords = [(row, pos)] := by
    match pos, hpos with
    | 0, _ => rw [hstart]; rfl
    | (n+1), hpos => rw [hmid (n+1) (by omega) (by omega)]; rfl
  by_cases hlast : pos = fs.seq.length
  · -- transition into END
    subst hlast
    rw [hend]
    simp only [seqCoordsConsistentCheck, List.all_eq_true]
    intro sc hsc
    have : sc = (row, fs.seq.length) := by
      rw [leafEndState] at hsc
      simpa using hsc
    subst this
    rw [hsrc]
    simp [coordOf, pathRow, List.lookup, leafEndState, alignPathResiduesInRow]
  · -- transition into an interior state
    have hlt : pos + 1 ≤ fs.seq.length := by omega
    rw [hmid (pos + 1) (by omega) hlt]
    simp only [seqCoordsConsistentCheck, List.all_eq_true]
    intro sc hsc
    have : sc = (row, pos + 1) := by
      rw [leafInteriorState] at hsc
      simpa using hsc
    subst this
    rw [hsrc]
    simp [coordOf, pathRow, List.lookup, leafInteriorState, alignPathResiduesInRow]

/-- Claim C2: a leaf sequence of length `L` yields a linear chain of `L + 2`
states and `L + 1` transitions `pos → pos + 1`, each with `lpTrans = 0` and no
transition path; the coordinates of the leaf's row advance `0, 1, ..., L` from
START to END; each interior state `s_i` is absorbing, with emission 0 at the
observed token and `-infinity` at every other token (a wildcard yields 0 at
every token). -/
theorem claim_C2_leaf (components : Nat) (alphabet : List Char) (fs : FastSeq)
    (row : AlignRowIndex) (hc : 0 < components)
    (hv : ∀ c ∈ fs.seq, isWildcard c = true ∨ c ∈ alphabet) :
    (leafProfile components alphabet fs row).state.length = fs.seq.length + 2 ∧
    (leafProfile components alphabet fs row).trans.length = fs.seq.length + 1 ∧
    (∀ pos, pos ≤ fs.seq.length →
      (leafProfile components alphabet fs row).trans.getD pos ProfileTransition.null =
        ⟨pos, pos + 1, (0 : LogProb), []⟩) ∧
    ((leafProfile components alphabet fs row).state.getD 0
        ProfileState.nullState).seqCoords = [(row, 0)] ∧
    ((leafProfile components alphabet fs row).state.getD (fs.seq.length + 1)
        ProfileState.nullState).seqCoords = [(row, fs.seq.length)] ∧
    (∀ i, 1 ≤ i → i ≤ fs.seq.length →
      ((leafProfile components alphabet fs row).state.getD i
          ProfileState.nullState).seqCoords = [(row, i)] ∧
      ((leafProfile components alphabet fs row).state.getD i
          ProfileState.nullState).isNull = false ∧
      (∀ cpt, cpt < components → ∀ a, a < alphabet.length →
        ((((leafProfile components alphabet fs row).state.getD i
            ProfileState.nullState).lpAbsorb.getD cpt []).getD a ⊥ : LogProb) =
          (if isWildcard (fs.seq.getD (i - 1) ' ') then (0 : LogProb)
           else if a = alphabet.indexOf (fs.seq.getD (i - 1) ' ') then (0 : LogProb)
           else ⊥))) := by
  obtain ⟨hstart, hmid, hend⟩ := leafProfile_state_getD components alphabet fs row
  refine ⟨by rw [leafProfile]; simp, by rw [leafProfile]; simp,
    fun pos h => leafProfile_trans_getD components alphabet fs row pos h,
    by rw [hstart]; rfl, by rw [hend]; rfl, ?_⟩
  intro i h1 h2
  rw [hmid i h1 h2]
  have hchar : isWildcard (fs.seq.getD (i - 1) ' ') = true ∨
      fs.seq.getD (i - 1) ' ' ∈ alphabet := by
    apply hv
    have : i - 1 < fs.seq.length := by omega
    rw [List.getD_eq_getElem?_getD, List.getElem?_eq_getElem this]
    exact List.getElem_mem _
  refine ⟨rfl, ?_, ?_⟩
  · rw [leafInteriorState, ProfileState.isNull]
    simp
    omega
  · intro cpt hcpt a ha
    rw [leafInteriorState]
    simp only
    rw [getD_replicate _ _ hcpt, leafEmissionRow]
    by_cases hw : isWildcard (fs.seq.getD (i - 1) ' ')
    · rw [if_pos hw, if_pos hw]
      exact getD_replicate _ _ ha
    · rw [if_neg hw, if_neg (by simpa using hw)]
      have hmem : fs.seq.getD (i - 1) ' ' ∈ alphabet := by
        rcases hchar with h | h
        · exact absurd h (by simpa using hw)
        · exact h
      have hidx : alphabet.indexOf (fs.seq.getD (i - 1) ' ') < alphabet.length :=
        List.indexOf_lt_length.mpr hmem
      by_cases heq : a = alphabet.indexOf (fs.seq.getD (i - 1) ' ')
      · rw [if_pos heq, heq]
        exact getD_set_self _ _ (by simpa using hidx)
      · rw [if_neg heq]
        rw [getD_set_ne _ _ (fun hh => heq hh.symm)]
        exact getD_replicate _ _ ha

/-- Witness for C2 at the sequence `"a*c"` over alphabet `{a, c}` with one
mixture component. -/
theorem claim_C2_leaf_witness :
    0 < 1 ∧
    (∀ c ∈ (⟨"x", ['a', '*', 'c']⟩ : FastSeq).seq,
      isWildcard c = true ∨ c ∈ (['a', 'c'] : List Char)) ∧
    (leafProfile 1 ['a', 'c'] ⟨"x", ['a', '*', 'c']⟩ 0).state.length =
      (⟨"x", ['a', '*', 'c']⟩ : FastSeq).seq.length + 2 :=
  ⟨by decide, by decide,
    (claim_C2_leaf 1 ['a', 'c'] ⟨"x", ['a', '*', 'c']⟩ 0 (by decide) (by decide)).1⟩

/-! ## Lemmas about `leftMultiply` -/

theorem leftMultiplyState_frame (sub : List (List (List ℚ))) (components alphSize : Nat)
    (st : ProfileState ℚ) :
    (leftMultiplyState sub components alphSize st).name = st.name ∧
    (leftMultiplyState sub components alphSize st).meta = st.meta ∧
    (leftMultiplyState sub components alphSize st).inT = st.inT ∧
    (leftMultiplyState sub components alphSize st).nullOut = st.nullOut ∧
    (leftMultiplyState sub components alphSize st).absorbOut = st.absorbOut ∧
    (leftMultiplyState sub components alphSize st).alignPath = st.alignPath ∧
    (leftMultiplyState sub components alphSize st).seqCoords = st.seqCoords := by
  rw [leftMultiplyState]
  split <;> exact ⟨rfl, rfl, rfl, rfl, rfl, rfl, rfl⟩

theorem leftMultiplyState_nullState (sub : List (List (List ℚ))) (components alphSize : Nat) :
    leftMultiplyState sub components alphSize ProfileState.nullState =
      ProfileState.nullState := by
  rw [leftMultiplyState, if_pos (by rfl)]

theorem leftMultiply_state_getD (sub : List (List (List ℚ))) (p : Profile ℚ) (i : Nat) :
    (p.leftMultiply sub).state.getD i ProfileState.nullState =
      leftMultiplyState sub p.components p.alphSize
        (p.state.getD i ProfileState.nullState) := by
  rw [Profile.leftMultiply]
  simp only
  by_cases h : i < p.state.length
  · rw [List.getD_eq_getElem?_getD, List.getElem?_map,
      List.getElem?_eq_getElem h]
    rw [List.getD_eq_getElem?_getD, List.getElem?_eq_getElem h]
    rfl
  · rw [List.getD_eq_getElem?_getD, List.getElem?_eq_none (by simpa using not_lt.mp h),
      List.getD_eq_getElem?_getD, List.getElem?_eq_none (by simpa using not_lt.mp h)]
    exact (leftMultiplyState_nullState sub p.components p.alphSize).symm

/-- C1 part two: `leftMultiply` preserves sequence-coordinate consistency. -/
theorem leftMultiply_seqCoordsOK (sub : List (List (List ℚ))) (p : Profile ℚ)
    (h : p.seqCoordsOK = true) : (p.leftMultiply sub).seqCoordsOK = true := by
  rw [Profile.seqCoordsOK, List.all_eq_true] at h ⊢
  intro t ht
  have htp : t ∈ p.trans := ht
  have := h t htp
  rw [leftMultiply_state_getD, leftMultiply_state_getD]
  rw [(leftMultiplyState_frame sub p.components p.alphSize
        (p.state.getD t.src ProfileState.nullState)).2.2.2.2.2.2,
      (leftMultiplyState_frame sub p.components p.alphSize
        (p.state.getD t.dest ProfileState.nullState)).2.2.2.2.2.2,
      (leftMultiplyState_frame sub p.components p.alphSize
        (p.state.getD t.dest ProfileState.nullState)).2.2.2.2.2.1]
  exact this

/-- Claim C4: `leftMultiply` returns a copy in which each non-null (absorbing)
state's emission vector is replaced, per mixture component, by the product of
the substitution matrix with the old emission vector (the exponential-space
reading of `log(sub * exp(lpAbsorb))`), while every other field of the profile
and of each state is unchanged, null states are untouched, and the graph
topology (state count, transitions, in/out lists) is identical. -/
theorem claim_C4_leftMultiply (sub : List (List (List ℚ))) (p : Profile ℚ) :
    ((p.leftMultiply sub).components = p.components ∧
     (p.leftMultiply sub).alphSize = p.alphSize ∧
     (p.leftMultiply sub).name = p.name ∧
     (p.leftMultiply sub).meta = p.meta ∧
     (p.leftMultiply sub).seq = p.seq ∧
     (p.leftMultiply sub).trans = p.trans ∧
     (p.leftMultiply sub).equivAbsorbState = p.equivAbsorbState ∧
     (p.leftMultiply sub).state.length = p.state.length) ∧
    (∀ i : Nat,
      ((p.leftMultiply sub).state.getD i ProfileState.nullState).name =
        (p.state.getD i ProfileState.nullState).name ∧
      ((p.leftMultiply sub).state.getD i ProfileState.nullState).meta =
        (p.state.getD i ProfileState.nullState).meta ∧
      ((p.leftMultiply sub).state.getD i ProfileState.nullState).inT =
        (p.state.getD i ProfileState.nullState).inT ∧
      ((p.leftMultiply sub).state.getD i ProfileState.nullState).nullOut =
        (p.state.getD i ProfileState.nullState).nullOut ∧
      ((p.leftMultiply sub).state.getD i ProfileState.nullState).absorbOut =
        (p.state.getD i ProfileState.nullState).absorbOut ∧
      ((p.leftMultiply sub).state.getD i ProfileState.nullState).alignPath =
        (p.state.getD i ProfileState.nullState).alignPath ∧
      ((p.leftMultiply sub).state.getD i ProfileState.nullState).seqCoords =
        (p.state.getD i ProfileState.nullState).seqCoords) ∧
    (∀ i : Nat, (p.state.getD i ProfileState.nullState).isNull = true →
      (p.leftMultiply sub).state.getD i ProfileState.nullState =
        p.state.getD i ProfileState.nullState) ∧
    (∀ i : Nat, (p.state.getD i ProfileState.nullState).isNull = false →
      ∀ cpt, cpt < p.components → ∀ c, c < p.alphSize →
        ((((p.leftMultiply sub).state.getD i ProfileState.nullState).lpAbsorb.getD
            cpt []).getD c 0 : ℚ) =
          ((List.range p.alphSize).map (fun d =>
            ((sub.getD cpt []).getD c []).getD d 0 *
              (((p.state.getD i ProfileState.nullState).lpAbsorb.getD cpt []).getD
                d 0))).sum) := by
  refine ⟨⟨rfl, rfl, rfl, rfl, rfl, rfl, rfl, by rw [Profile.leftMultiply]; simp⟩,
    ?_, ?_, ?_⟩
  · intro i
    rw [leftMultiply_state_getD]
    exact leftMultiplyState_frame sub p.components p.alphSize _
  · intro i hnull
    rw [leftMultiply_state_getD, leftMultiplyState, if_pos hnull]
  · intro i hnull cpt hcpt c hc
    rw [leftMultiply_state_getD, leftMultiplyState, if_neg (by rw [hnull]; simp)]
    simp only
    rw [getD_map_range _ _ _ _ hcpt, getD_map_range _ _ _ _ hc]

/-- Witness for C4 on a three-state profile with a single absorbing state and
a 2x2 substitution matrix. -/
theorem claim_C4_leftMultiply_witness :
    ((witLmProfile.state.getD 1 ProfileState.nullState).isNull = false ∧
      0 < witLmProfile.components ∧ 0 < witLmProfile.alphSize ∧
      (witLmProfile.leftMultiply witLmSub).trans = witLmProfile.trans ∧
      ((((witLmProfile.leftMultiply witLmSub).state.getD 1
          ProfileState.nullState).lpAbsorb.getD 0 []).getD 0 0 : ℚ) =
        ((List.range witLmProfile.alphSize).map (fun d =>
          ((witLmSub.getD 0 []).getD 0 []).getD d 0 *
            (((witLmProfile.state.getD 1 ProfileState.nullState).lpAbsorb.getD
              0 []).getD d 0))).sum) :=
  ⟨by decide, by decide, by decide,
   (claim_C4_leftMultiply witLmSub witLmProfile).1.2.2.2.2.2.1,
   (claim_C4_leftMultiply witLmSub witLmProfile).2.2.2 1 (by decide) 0 (by decide) 0
     (by decide)⟩

/-! ## Lemmas about `scatter` -/

theorem scatter_length {β : Type} (idx : List Nat) (src init : List β) :
    (scatter idx src init).length = init.length := by
  rw [scatter]
  generalize idx.zip src = l
  induction l generalizing init with
  | nil => rfl
  | cons p rest ih =>
    rw [List.foldl_cons]
    rw [ih]
    exact List.length_set _ _ _

theorem scatter_getD_not_mem {β : Type} (idx : List Nat) (src init : List β) (i : Nat)
    (d : β) (h : i ∉ idx) : (scatter idx src init).getD i d = init.getD i d := by
  rw [scatter]
  have hzip : ∀ p ∈ idx.zip src, p.1 ≠ i := by
    intro p hp he
    exact h (he ▸ (List.of_mem_zip hp).1)
  generalize idx.zip src = l at hzip
  induction l generalizing init with
  | nil => rfl
  | cons p rest ih =>
    rw [List.foldl_cons]
    rw [ih _ (fun q hq => hzip q (List.mem_cons_of_mem p hq))]
    exact getD_set_ne _ _ (hzip p (List.mem_cons_self p rest))

theorem scatter_getD {β : Type} (idx : List Nat) (src init : List β) (k : Nat) (d : β)
    (hn : idx.Nodup) (hb : ∀ v ∈ idx, v < init.length)
    (hk : k < idx.length) (hks : k < src.length) :
    (scatter idx src init).getD (idx.getD k 0) d = src.getD k d := by
  induction idx generalizing src init k with
  | nil => simp at hk
  | cons i0 idxr ih =>
    match src, hks with
    | s0 :: srcr, hks =>
      simp only [scatter, List.zip_cons_cons, List.foldl_cons]
      match k, hk with
      | 0, _ =>
        simp only [List.getD_cons_zero]
        have hnot : i0 ∉ idxr := (List.nodup_cons.mp hn).1
        have : (List.foldl (fun acc p => acc.set p.1 p.2) (init.set i0 s0)
            (idxr.zip srcr)).getD i0 d = (init.set i0 s0).getD i0 d :=
          scatter_getD_not_mem idxr srcr (init.set i0 s0) i0 d hnot
        simp only [scatter] at this
        rw [this]
        exact getD_set_self _ _ (hb i0 (List.mem_cons_self _ _))
      | (k'+1), hk =>
        simp only [List.getD_cons_succ]
        have := ih srcr (init.set i0 s0) k' (List.nodup_cons.mp hn).2
          (fun v hv => by rw [List.length_set]; exact hb v (List.mem_cons_of_mem _ hv))
          (by simpa using hk) (by simpa using hks)
        simp only [scatter] at this
        exact this

theorem mem_scatter {β : Type} (idx : List Nat) (src init : List β) (x : β)
    (h : x ∈ scatter idx src init) : x ∈ init ∨ x ∈ src := by
  rw [scatter] at h
  have hzip : ∀ p ∈ idx.zip src, p.2 ∈ src := fun p hp => (List.of_mem_zip hp).2
  generalize idx.zip src = l at h hzip
  induction l generalizing init with
  | nil => exact Or.inl h
  | cons p rest ih =>
    rw [List.foldl_cons] at h
    rcases ih (init.set p.1 p.2) h (fun q hq => hzip q (List.mem_cons_of_mem p hq)) with
      hi | hs
    · rcases List.mem_or_eq_of_mem_set hi with hi2 | he
      · exact Or.inl hi2
      · exact Or.inr (he ▸ hzip p (List.mem_cons_self p rest))
    · exact Or.inr hs

theorem getD_range (n i : Nat) (h : i < n) : (List.range n).getD i 0 = i := by
  rw [List.getD_eq_getElem?_getD, List.getElem?_range h]
  rfl

theorem getD_eq_getElem {β : Type} {l : List β} {i : Nat} (d : β) (h : i < l.length) :
    l.getD i d = l[i] := by
  rw [List.getD_eq_getElem?_getD, List.getElem?_eq_getElem h]
  rfl

theorem scatter_range {β : Type} (n : Nat) (src init : List β) (h1 : src.length = n)
    (h2 : init.length = n) : scatter (List.range n) src init = src := by
  apply List.ext_getElem
  · rw [scatter_length, h2, h1]
  · intro i hi1 hi2
    have hi : i < n := by rw [scatter_length, h2] at hi1; exact hi1
    have hsc := scatter_getD (List.range n) src init i src[i] (List.nodup_range n)
      (fun v hv => by rw [h2]; exact List.mem_range.mp hv) (by simpa using hi)
      (by omega)
    rw [getD_range n i hi] at hsc
    rw [getD_eq_getElem _ (by rw [scatter_length, h2]; exact hi),
      getD_eq_getElem _ (by omega)] at hsc
    exact hsc

/-! ## The `addReadyStates` fold invariant -/

theorem append_pair_perm {γ : Type} (A B : List γ) (n m : γ) :
    ((A ++ [n]) ++ (B ++ [m])).Perm ((A ++ B) ++ [n, m]) := by
  have h1 : (A ++ [n]) ++ (B ++ [m]) = A ++ ([n] ++ (B ++ [m])) := by
    simp [List.append_assoc]
  have h2 : (A ++ B) ++ [n, m] = A ++ (B ++ [n, m]) := by
    simp [List.append_assoc]
  rw [h1, h2]
  apply List.Perm.append_left
  calc ([n] ++ (B ++ [m])).Perm ((B ++ [m]) ++ [n]) := List.perm_append_comm
    _ = B ++ [m, n] := by simp
    _ |>.Perm (B ++ [n, m]) := List.Perm.append_left B (List.Perm.swap n m [])

theorem arFold_append {α : Type} (N T : Nat) (l : List (ProfileState α))
    (x : ProfileState α) (init : ARAcc α) :
    arFold N T (l ++ [x]) init = arStep N T (arFold N T l init) x := by
  rw [arFold, arFold, List.foldl_append]
  rfl

theorem arFold_spec {α : Type} (N T : Nat) (tr0 : List ProfileTransition)
    (l : List (ProfileState α)) :
    ARSpec N T tr0 l (arFold N T l ⟨0, [], [], [], [], tr0⟩) := by
  induction l using List.reverseRecOn with
  | nil =>
    have h0 : arFold N T ([] : List (ProfileState α)) ⟨0, [], [], [], [], tr0⟩ =
        ⟨0, [], [], [], [], tr0⟩ := rfl
    rw [h0]
    exact ⟨rfl, rfl, rfl, rfl, by simp, by simp, by simp, by simp,
      ⟨[], by simp, rfl, by simp⟩⟩
  | append_singleton l x ih =>
    rw [arFold_append]
    set acc := arFold N T l ⟨0, [], [], [], [], tr0⟩ with hacc
    by_cases hWR : (x.isReady || x.isWait) = true
    · -- no split: the state is copied
      rw [arStep, if_pos hWR]
      refine ⟨?_, ?_, ?_, ?_, ?_, ?_, ?_, ?_, ?_⟩
      · simp [ih.mainStatesLen]
      · simp [ih.mainMapLen]
      · exact ih.readyMapLen
      · simp only
        rw [ih.nVal]
        simp
        omega
      · simp only
        have heq : (acc.mainMap ++ [acc.n]) ++ acc.readyMap =
            acc.mainMap ++ acc.n :: acc.readyMap := by simp
        rw [heq, List.nodup_middle]
        refine List.nodup_cons.mpr ⟨?_, ih.mapsNodup⟩
        intro hmem
        exact absurd rfl (Nat.ne_of_lt (ih.mapsBound acc.n hmem)).symm
      · intro v hv
        simp only at hv ⊢
        rcases List.mem_append.mp hv with hL | hR
        · rcases List.mem_append.mp hL with h1 | h2
          · exact Nat.lt_succ_of_lt (ih.mapsBound v (List.mem_append.mpr (Or.inl h1)))
          · simp at h2
            omega
        · exact Nat.lt_succ_of_lt (ih.mapsBound v (List.mem_append.mpr (Or.inr hR)))
      · intro st hst
        simp only at hst
        rcases List.mem_append.mp hst with hL | hR
        · rcases List.mem_append.mp hL with h1 | h2
          · exact ih.statesWR st (List.mem_append.mpr (Or.inl h1))
          · simp at h2
            subst h2
            rcases Bool.or_eq_true_iff.mp hWR with h | h
            · rw [h]; simp
            · rw [h]; simp
        · exact ih.statesWR st (List.mem_append.mpr (Or.inr hR))
      · intro s hs
        simp only
        by_cases hlt : s < l.length
        · rw [List.getD_append _ _ _ _ (by rw [ih.mainStatesLen]; exact hlt),
            List.getD_append _ _ _ _ hlt]
          exact ih.mainFrame s hlt
        · have hseq : s = l.length := by
            simp at hs
            omega
          subst hseq
          rw [List.getD_eq_getElem?_getD, List.getElem?_append_right
              (by rw [ih.mainStatesLen]),
            List.getD_eq_getElem?_getD, List.getElem?_append_right (le_refl _)]
          rw [ih.mainStatesLen]
          simp
      · obtain ⟨extra, hnt, hlen, hspec⟩ := ih.transSpec
        refine ⟨extra, hnt, hlen, ?_⟩
        intro k hk
        obtain ⟨s, hs, hget, hcoords, hpath⟩ := hspec k hk
        refine ⟨s, by simp; omega, hget, ?_, hpath⟩
        rw [hcoords, List.getD_append _ _ _ _ hs]
    · -- split: a Wait/Ready pair is produced
      rw [arStep, if_neg hWR]
      simp only
      refine ⟨?_, ?_, ?_, ?_, ?_, ?_, ?_, ?_, ?_⟩
      · simp [ih.mainStatesLen]
      · simp [ih.mainMapLen]
      · simp [ih.readyMapLen]
      · rw [ih.nVal]
        simp
        omega
      · have hperm := append_pair_perm acc.mainMap acc.readyMap acc.n (acc.n + 1)
        rw [hperm.nodup_iff]
        rw [List.nodup_append]
        refine ⟨ih.mapsNodup, by simp, ?_⟩
        intro v hv hv2
        have := ih.mapsBound v hv
        simp at hv2
        omega
      · intro v hv
        show v < acc.n + 2
        rcases List.mem_append.mp hv with hL | hR
        · rcases List.mem_append.mp hL with h1 | h2
          · have := ih.mapsBound v (List.mem_append.mpr (Or.inl h1))
            omega
          · simp at h2
            omega
        · rcases List.mem_append.mp hR with h1 | h2
          · have := ih.mapsBound v (List.mem_append.mpr (Or.inr h1))
            omega
          · simp at h2
            omega
      · intro st hst
        rcases List.mem_append.mp hst with hL | hR
        · rcases List.mem_append.mp hL with h1 | h2
          · exact ih.statesWR st (List.mem_append.mpr (Or.inl h1))
          · simp at h2
            subst h2
            simp [ProfileState.isWait]
        · rcases List.mem_append.mp hR with h1 | h2
          · exact ih.statesWR st (List.mem_append.mpr (Or.inr h1))
          · simp at h2
            subst h2
            simp [ProfileState.isReady, ProfileState.nullState]
      · intro s hs
        by_cases hlt : s < l.length
        · rw [List.getD_append _ _ _ _ (by rw [ih.mainStatesLen]; exact hlt),
            List.getD_append _ _ _ _ hlt]
          exact ih.mainFrame s hlt
        · have hseq : s = l.length := by
            simp at hs
            omega
          subst hseq
          rw [List.getD_eq_getElem?_getD, List.getElem?_append_right
              (by rw [ih.mainStatesLen]),
            List.getD_eq_getElem?_getD, List.getElem?_append_right (le_refl _)]
          rw [ih.mainStatesLen]
          simp
      · obtain ⟨extra, hnt, hlen, hspec⟩ := ih.transSpec
        refine ⟨extra ++ [⟨acc.mainStates.length, N + acc.readyStates.length,
          (0 : LogProb), []⟩], by rw [hnt]; simp, by simp [hlen], ?_⟩
        intro k hk
        simp at hk
        have hb1 : ∀ (t : ProfileTransition) (ts : List ProfileTransition),
            (ts ++ [t]).getD ts.length ProfileTransition.null = t := by
          intro t ts
          rw [List.getD_eq_getElem?_getD, List.getElem?_append_right (le_refl _)]
          simp
        have hb2 : ∀ (st : ProfileState α) (ss : List (ProfileState α)),
            (ss ++ [st]).getD ss.length ProfileState.nullState = st := by
          intro st ss
          rw [List.getD_eq_getElem?_getD, List.getElem?_append_right (le_refl _)]
          simp
        by_cases hkk : k < extra.length
        · obtain ⟨s, hs, hget, hcoords, hpath⟩ := hspec k hkk
          refine ⟨s, by simp; omega, ?_, ?_, ?_⟩
          · rw [List.getD_append _ _ _ _ hkk]
            exact hget
          · rw [List.getD_append _ _ _ _ (by omega)]
            rw [hcoords, List.getD_append _ _ _ _ hs]
          · rw [List.getD_append _ _ _ _ (by omega)]
            exact hpath
        · have hke : k = extra.length := by omega
          subst hke
          refine ⟨l.length, by simp, ?_, ?_, ?_⟩
          · rw [hb1, ih.mainStatesLen, ← hlen]
          · rw [hlen, hb2, hb2]
          · rw [hlen, hb2]
            exact rfl

/-- When every state is already Wait or Ready the first loop copies the
profile unchanged. -/
theorem arFold_no_split {α : Type} (N T : Nat) (tr0 : List ProfileTransition)
    (l : List (ProfileState α)) (h : ∀ st ∈ l, (st.isReady || st.isWait) = true) :
    arFold N T l ⟨0, [], [], [], [], tr0⟩ =
      ⟨l.length, List.range l.length, [], l, [], tr0⟩ := by
  induction l using List.reverseRecOn with
  | nil => rfl
  | append_singleton l x ih =>
    rw [arFold_append, ih (fun st hst => h st (by simp [hst]))]
    rw [arStep, if_pos (h x (by simp))]
    simp [List.range_succ]

/-- Every state of `addReadyStates p` is Wait or Ready
(`Profile::assertAllStatesWaitOrReady` holds on the result). -/
theorem addReadyStates_allWR {α : Type} (p : Profile α) :
    (p.addReadyStates).allStatesWaitOrReady = true := by
  rw [Profile.allStatesWaitOrReady, List.all_eq_true]
  intro st hst
  rw [Profile.addReadyStates] at hst
  simp only at hst
  rcases mem_scatter _ _ _ st hst with hinit | hsrc
  · have : st = ProfileState.nullState := List.eq_of_mem_replicate hinit
    subst this
    rfl
  · have := (arFold_spec p.state.length p.trans.length p.trans p.state).statesWR st hsrc
    rw [Bool.or_comm] at this
    exact this

/-- A profile whose states are all Wait or Ready and whose indices are
well-formed is a fixed point of `addReadyStates`. -/
theorem addReadyStates_fixpoint {α : Type} (q : Profile α)
    (hWR : ∀ st ∈ q.state, (st.isReady || st.isWait) = true)
    (hwf : q.wf) : q.addReadyStates = q := by
  obtain ⟨htr, heqv⟩ := hwf
  rw [Profile.addReadyStates]
  simp only [arFold_no_split q.state.length q.trans.length q.trans q.state hWR]
  simp only [List.append_nil]
  have hsc : scatter (List.range q.state.length) q.state
      (List.replicate q.state.length ProfileState.nullState) = q.state :=
    scatter_range _ _ _ rfl (List.length_replicate _ _)
  rw [hsc]
  have hmap : q.trans.map (fun t =>
      { t with src := (List.range q.state.length).getD t.src 0,
               dest := (List.range q.state.length).getD t.dest 0 }) = q.trans := by
    have hpt : ∀ t ∈ q.trans, ({ t with
        src := (List.range q.state.length).getD t.src 0,
        dest := (List.range q.state.length).getD t.dest 0 } : ProfileTransition) =
          id t := by
      intro t ht
      rw [getD_range _ _ (htr t ht).1, getD_range _ _ (htr t ht).2]
      rfl
    rw [List.map_congr_left hpt, List.map_id]
  rw [hmap]
  have hmap2 : q.equivAbsorbState.map (fun ab =>
      ((List.range q.state.length).getD ab.1 0,
       (List.range q.state.length).getD ab.2 0)) = q.equivAbsorbState := by
    have hpt : ∀ ab ∈ q.equivAbsorbState,
        (((List.range q.state.length).getD ab.1 0,
          (List.range q.state.length).getD ab.2 0) : Nat × Nat) = id ab := by
      intro ab hab
      rw [getD_range _ _ (heqv ab hab).1, getD_range _ _ (heqv ab hab).2]
      rfl
    rw [List.map_congr_left hpt, List.map_id]
  rw [hmap2]

theorem getD_mem_of_lt {β : Type} {l : List β} {i : Nat} (d : β) (h : i < l.length) :
    l.getD i d ∈ l := by
  rw [getD_eq_getElem _ h]
  exact List.getElem_mem _

/-- `addReadyStates` keeps all transition and `equivAbsorbState` indices in
range. -/
theorem addReadyStates_wf {α : Type} (p : Profile α) (hwf : p.wf) :
    (p.addReadyStates).wf := by
  obtain ⟨htr, heqv⟩ := hwf
  have hspec := arFold_spec p.state.length p.trans.length p.trans p.state
  set acc := arFold p.state.length p.trans.length p.state
    ⟨0, [], [], [], [], p.trans⟩ with hacc
  have hN : acc.mainMap.length = p.state.length := hspec.mainMapLen
  have ho2nLen : (acc.mainMap ++ acc.readyMap).length =
      p.state.length + acc.readyStates.length := by
    rw [List.length_append, hN, hspec.readyMapLen]
  have hstLen : (p.addReadyStates).state.length =
      p.state.length + acc.readyStates.length := by
    rw [Profile.addReadyStates]
    simp only [← hacc]
    rw [scatter_length, List.length_replicate, List.length_append,
      hspec.mainStatesLen]
  have hgetB : ∀ i, i < (acc.mainMap ++ acc.readyMap).length →
      (acc.mainMap ++ acc.readyMap).getD i 0 <
        p.state.length + acc.readyStates.length := by
    intro i hi
    have := hspec.mapsBound _ (getD_mem_of_lt 0 hi)
    rw [hspec.nVal] at this
    exact this
  constructor
  · intro t ht
    rw [Profile.addReadyStates] at ht
    simp only [← hacc] at ht
    rw [List.mem_map] at ht
    obtain ⟨t0, ht0, rfl⟩ := ht
    obtain ⟨extra, hnt, hlen, hspec2⟩ := hspec.transSpec
    rw [hnt, List.mem_append] at ht0
    rw [hstLen]
    rcases ht0 with h1 | h2
    · have hsrc := (htr t0 h1).1
      have hdest := (htr t0 h1).2
      exact ⟨hgetB t0.src (by omega), hgetB t0.dest (by omega)⟩
    · obtain ⟨k, hk, hkt⟩ := List.mem_iff_getElem.mp h2
      obtain ⟨s, hs, hget, -, -⟩ := hspec2 k hk
      have ht0eq : t0 = ⟨s, p.state.length + k, (0 : LogProb), []⟩ := by
        rw [← hkt, ← hget, getD_eq_getElem _ hk]
      subst ht0eq
      refine ⟨hgetB s (by omega), hgetB (p.state.length + k) (by omega)⟩
  · intro ab hab
    rw [Profile.addReadyStates] at hab
    simp only [← hacc] at hab
    rw [List.mem_map] at hab
    obtain ⟨ab0, hab0, rfl⟩ := hab
    have h1 := (heqv ab0 hab0).1
    have h2 := (heqv ab0 hab0).2
    rw [hstLen]
    exact ⟨hgetB ab0.1 (by omega), hgetB ab0.2 (by omega)⟩

/-- The consistency check trivially holds when source and destination carry
the same coordinate map and both paths are empty. -/
theorem seqCoordsConsistentCheck_refl (C : SeqCoords) :
    seqCoordsConsistentCheck C C [] [] = true := by
  rw [seqCoordsConsistentCheck, List.all_eq_true]
  intro sc hsc
  rw [Bool.and_eq_true]
  constructor
  · rw [Bool.or_eq_true_iff, Bool.or_eq_true_iff]
    refine Or.inl (Or.inl ?_)
    rw [decide_eq_true_iff]
    exact List.mem_map_of_mem Prod.fst hsc
  · simp [pathRow, alignPathResiduesInRow, List.lookup]

/-- C1 part three: `addReadyStates` preserves sequence-coordinate
consistency on well-formed profiles. -/
theorem addReadyStates_seqCoordsOK {α : Type} (p : Profile α)
    (htr : ∀ t ∈ p.trans, t.src < p.state.length ∧ t.dest < p.state.length)
    (h : p.seqCoordsOK = true) : (p.addReadyStates).seqCoordsOK = true := by
  have hspec := arFold_spec p.state.length p.trans.length p.trans p.state
  set acc := arFold p.state.length p.trans.length p.state
    ⟨0, [], [], [], [], p.trans⟩ with hacc
  obtain ⟨extra, hnt, hlen, hspec2⟩ := hspec.transSpec
  have hN : acc.mainMap.length = p.state.length := hspec.mainMapLen
  have hinitLen : (List.replicate (acc.mainStates ++ acc.readyStates).length
      (ProfileState.nullState : ProfileState α)).length =
      p.state.length + acc.readyStates.length := by
    rw [List.length_replicate, List.length_append, hspec.mainStatesLen]
  -- looked-up new state at a remapped old index
  have hstate : ∀ i, i < p.state.length + acc.readyStates.length →
      (scatter (acc.mainMap ++ acc.readyMap) (acc.mainStates ++ acc.readyStates)
          (List.replicate (acc.mainStates ++ acc.readyStates).length
            ProfileState.nullState)).getD
          ((acc.mainMap ++ acc.readyMap).getD i 0) ProfileState.nullState =
        (acc.mainStates ++ acc.readyStates).getD i ProfileState.nullState := by
    intro i hi
    apply scatter_getD
    · exact hspec.mapsNodup
    · intro v hv
      rw [hinitLen]
      have := hspec.mapsBound v hv
      rw [hspec.nVal] at this
      exact this
    · rw [List.length_append, hN, hspec.readyMapLen]
      exact hi
    · rw [List.length_append, hspec.mainStatesLen]
      exact hi
  rw [Profile.seqCoordsOK, List.all_eq_true]
  intro t' ht'
  rw [Profile.addReadyStates] at ht' ⊢
  simp only [← hacc] at ht' ⊢
  rw [List.mem_map] at ht'
  obtain ⟨t0, ht0, rfl⟩ := ht'
  simp only
  rw [hnt, List.mem_append] at ht0
  rcases ht0 with h1 | h2
  · -- an original transition: source and destination keep their coordinates
    have hsrc := (htr t0 h1).1
    have hdest := (htr t0 h1).2
    rw [hstate t0.src (by omega), hstate t0.dest (by omega)]
    have hgs : (acc.mainStates ++ acc.readyStates).getD t0.src
        ProfileState.nullState = acc.mainStates.getD t0.src ProfileState.nullState :=
      List.getD_append _ _ _ _ (by rw [hspec.mainStatesLen]; exact hsrc)
    have hgd : (acc.mainStates ++ acc.readyStates).getD t0.dest
        ProfileState.nullState = acc.mainStates.getD t0.dest ProfileState.nullState :=
      List.getD_append _ _ _ _ (by rw [hspec.mainStatesLen]; exact hdest)
    rw [hgs, hgd, (hspec.mainFrame t0.src hsrc).1, (hspec.mainFrame t0.dest hdest).1,
      (hspec.mainFrame t0.dest hdest).2]
    rw [Profile.seqCoordsOK, List.all_eq_true] at h
    exact h t0 h1
  · -- a Wait-to-Ready transition: same coordinates, empty paths
    obtain ⟨k, hk, hkt⟩ := List.mem_iff_getElem.mp h2
    obtain ⟨s, hs, hget, hcoords, hpath⟩ := hspec2 k hk
    have ht0eq : t0 = ⟨s, p.state.length + k, (0 : LogProb), []⟩ := by
      rw [← hkt, ← hget, getD_eq_getElem _ hk]
    subst ht0eq
    rw [hstate s (by omega), hstate (p.state.length + k) (by omega)]
    have hgs : (acc.mainStates ++ acc.readyStates).getD s
        ProfileState.nullState = acc.mainStates.getD s ProfileState.nullState :=
      List.getD_append _ _ _ _ (by rw [hspec.mainStatesLen]; exact hs)
    have hgd : (acc.mainStates ++ acc.readyStates).getD (p.state.length + k)
        ProfileState.nullState = acc.readyStates.getD k ProfileState.nullState := by
      rw [List.getD_eq_getElem?_getD, List.getElem?_append_right
          (by rw [hspec.mainStatesLen]; omega), List.getD_eq_getElem?_getD,
        hspec.mainStatesLen]
      simp
    rw [hgs, hgd, (hspec.mainFrame s hs).1, hcoords, hpath]
    exact seqCoordsConsistentCheck_refl _

/-- Claim C5 (amended): `addReadyStates` is idempotent on well-formed
profiles, and after one application every state is Wait or Ready (inclusive:
a state with no out-transitions at all, such as END, is both). -/
theorem claim_C5_addReadyStates :
    (∀ (α : Type) (p : Profile α), p.wf →
      (p.addReadyStates).addReadyStates = p.addReadyStates) ∧
    (∀ (α : Type) (p : Profile α),
      (p.addReadyStates).allStatesWaitOrReady = true) := by
  constructor
  · intro α p hwf
    apply addReadyStates_fixpoint
    · intro st hst
      have := addReadyStates_allWR p
      rw [Profile.allStatesWaitOrReady, List.all_eq_true] at this
      exact this st hst
    · exact addReadyStates_wf p hwf
  · intro α p
    exact addReadyStates_allWR p

/-- Witness for C5 on a concrete profile with a state that is neither Wait nor
Ready (it has both a null and an absorbing out-transition), which
`addReadyStates` splits. -/
theorem claim_C5_addReadyStates_witness :
    witSplitProfile.wf ∧
    witSplitProfile.allStatesWaitOrReady = false ∧
    (witSplitProfile.addReadyStates).addReadyStates =
      witSplitProfile.addReadyStates ∧
    (witSplitProfile.addReadyStates).allStatesWaitOrReady = true :=
  ⟨by decide, by decide,
   claim_C5_addReadyStates.1 ℚ witSplitProfile (by decide),
   claim_C5_addReadyStates.2 ℚ witSplitProfile⟩

/-- Counterexample to C5 as stated: "every state is exactly one of Wait or
Ready" fails, because a state with no out-transitions at all satisfies both
predicates.  After `addReadyStates` on the leaf profile of the one-residue
sequence `"a"`, the END state (index 2) is simultaneously Wait and Ready. -/
theorem claim_C5_addReadyStates_counterexample :
    (((leafProfile 1 ['a'] ⟨"x", ['a']⟩ 0).addReadyStates).state.getD 2
        ProfileState.nullState).isWait = true ∧
    (((leafProfile 1 ['a'] ⟨"x", ['a']⟩ 0).addReadyStates).state.getD 2
        ProfileState.nullState).isReady = true := by
  constructor
  · decide
  · decide

/-- Claim C1: sequence-coordinate consistency is an invariant of the three
profile-producing operations: the leaf constructor establishes it, and
`leftMultiply` and `addReadyStates` (on profiles with in-range transition
indices) preserve it. -/
theorem claim_C1_seqCoords_invariant :
    (∀ (components : Nat) (alphabet : List Char) (fs : FastSeq)
      (row : AlignRowIndex),
      (leafProfile components alphabet fs row).seqCoordsOK = true) ∧
    (∀ (sub : List (List (List ℚ))) (p : Profile ℚ),
      p.seqCoordsOK = true → (p.leftMultiply sub).seqCoordsOK = true) ∧
    (∀ (α : Type) (p : Profile α),
      (∀ t ∈ p.trans, t.src < p.state.length ∧ t.dest < p.state.length) →
      p.seqCoordsOK = true → (p.addReadyStates).seqCoordsOK = true) :=
  ⟨leafProfile_seqCoordsOK,
   leftMultiply_seqCoordsOK,
   fun _ p htr h => addReadyStates_seqCoordsOK p htr h⟩

/-- Witness for C1 on concrete inputs: the leaf profile of `"a*c"`, a
`leftMultiply` of a concrete profile, and `addReadyStates` of a profile with
a split state. -/
theorem claim_C1_seqCoords_invariant_witness :
    ((leafProfile 1 ['a', 'c'] ⟨"x", ['a', '*', 'c']⟩ 0).seqCoordsOK = true) ∧
    (witLmProfile.seqCoordsOK = true ∧
      (witLmProfile.leftMultiply witLmSub).seqCoordsOK = true) ∧
    ((∀ t ∈ witSplitProfile.trans,
        t.src < witSplitProfile.state.length ∧
        t.dest < witSplitProfile.state.length) ∧
      witSplitProfile.seqCoordsOK = true ∧
      (witSplitProfile.addReadyStates).seqCoordsOK = true) :=
  ⟨claim_C1_seqCoords_invariant.1 1 ['a', 'c'] ⟨"x", ['a', '*', 'c']⟩ 0,
   ⟨by decide, claim_C1_seqCoords_invariant.2.1 witLmSub witLmProfile (by decide)⟩,
   ⟨by decide, by decide,
    claim_C1_seqCoords_invariant.2.2 ℚ witSplitProfile (by decide) (by decide)⟩⟩

/-! ## Lemmas about the diagonal envelope -/

theorem mem_insertSortedDedup {γ : Type} [LinearOrder γ] (x a : γ) (l : List γ) :
    a ∈ insertSortedDedup x l ↔ a = x ∨ a ∈ l := by
  induction l with
  | nil => simp [insertSortedDedup]
  | cons y rest ih =>
    rw [insertSortedDedup]
    split_ifs with h1 h2
    · simp
    · subst h2
      simp
    · rw [List.mem_cons, List.mem_cons, ih]
      tauto

theorem mem_sortedDedup {γ : Type} [LinearOrder γ] (a : γ) (l : List γ) :
    a ∈ sortedDedup l ↔ a ∈ l := by
  induction l with
  | nil => simp [sortedDedup]
  | cons y rest ih =>
    rw [sortedDedup, List.foldr_cons]
    rw [show List.foldr insertSortedDedup [] rest = sortedDedup rest from rfl]
    rw [mem_insertSortedDedup, ih]
    simp

theorem mem_unionSorted {γ : Type} [LinearOrder γ] (a : γ) (s adds : List γ) :
    a ∈ unionSorted s adds ↔ a ∈ s ∨ a ∈ adds := by
  induction adds with
  | nil => simp [unionSorted]
  | cons y rest ih =>
    rw [unionSorted, List.foldr_cons]
    rw [show List.foldr insertSortedDedup s rest = unionSorted s rest from rfl]
    rw [mem_insertSortedDedup, ih]
    simp
    tauto

theorem storageFold_spec (sz : Nat → Nat) (n : Nat) :
    (List.range n).foldl
      (fun acc j => (acc.1 ++ [sz j], acc.2.1 ++ [acc.2.2], acc.2.2 + sz j))
      (([], [], 0) : List Nat × List Nat × Nat) =
    ((List.range n).map sz,
     (List.range n).map (fun j => ((List.range j).map sz).sum),
     ((List.range n).map sz).sum) := by
  induction n with
  | zero => rfl
  | succ m ih =>
    rw [List.range_succ, List.foldl_append, ih, List.foldl_cons, List.foldl_nil]
    simp

theorem initStorage_storageSize (xLen yLen : Nat) (diags : List Int) :
    (initStorage xLen yLen diags).storageSize =
      (List.range (yLen + 1)).map (fun j =>
        ((initStorage xLen yLen diags).storageDiagonals.filter
          (intersectsDiag xLen j)).length) := by
  rw [initStorage]
  simp only [storageFold, storageFold_spec]

theorem initStorage_cumul (xLen yLen : Nat) (diags : List Int) :
    (initStorage xLen yLen diags).cumulStorageSize =
      (List.range (yLen + 1)).map (fun j =>
        ((List.range j).map (fun i =>
          ((initStorage xLen yLen diags).storageDiagonals.filter
            (intersectsDiag xLen i)).length)).sum) := by
  rw [initStorage]
  simp only [storageFold, storageFold_spec]

theorem initStorage_total (xLen yLen : Nat) (diags : List Int) :
    (initStorage xLen yLen diags).totalStorageSize =
      ((List.range (yLen + 1)).map (fun j =>
        ((initStorage xLen yLen diags).storageDiagonals.filter
          (intersectsDiag xLen j)).length)).sum := by
  rw [initStorage]
  simp only [storageFold, storageFold_spec]

theorem initStorage_diagonals (xLen yLen : Nat) (diags : List Int) :
    (initStorage xLen yLen diags).diagonals = diags := by
  rw [initStorage]

theorem mem_initStorage_storage (xLen yLen : Nat) (diags : List Int) (d : Int) :
    d ∈ (initStorage xLen yLen diags).storageDiagonals ↔
      ∃ e ∈ diags, d = e ∨ d = e - 1 ∨ d = e + 1 := by
  rw [initStorage]
  simp only
  rw [mem_sortedDedup, List.mem_flatMap]
  constructor
  · rintro ⟨e, he, hd⟩
    simp at hd
    rcases hd with h | h | h
    · exact ⟨e, he, Or.inl h⟩
    · exact ⟨e, he, Or.inr (Or.inl h)⟩
    · exact ⟨e, he, Or.inr (Or.inr h)⟩
  · rintro ⟨e, he, hd⟩
    refine ⟨e, he, ?_⟩
    rcases hd with h | h | h <;> simp [h]

/-- Soundness of `initStorage` (the shared tail of `initFull` and
`initSparse`): compute diagonals are storage diagonals, a computed diagonal 0
is stored, and the per-column storage bookkeeping is exact. -/
theorem initStorage_sound (xLen yLen : Nat) (diags : List Int)
    (h0 : (0 : Int) ∈ diags) :
    (∀ d ∈ (initStorage xLen yLen diags).diagonals,
      d ∈ (initStorage xLen yLen diags).storageDiagonals) ∧
    (0 : Int) ∈ (initStorage xLen yLen diags).storageDiagonals ∧
    (initStorage xLen yLen diags).storageSize.length = yLen + 1 ∧
    (∀ j, j ≤ yLen → (initStorage xLen yLen diags).storageSize.getD j 0 =
      ((initStorage xLen yLen diags).storageDiagonals.filter
        (intersectsDiag xLen j)).length) ∧
    (initStorage xLen yLen diags).totalStorageSize =
      (initStorage xLen yLen diags).storageSize.sum ∧
    (initStorage xLen yLen diags).cumulStorageSize.length = yLen + 1 ∧
    (∀ j, j ≤ yLen → (initStorage xLen yLen diags).cumulStorageSize.getD j 0 =
      ((initStorage xLen yLen diags).storageSize.take j).sum) := by
  refine ⟨?_, ?_, ?_, ?_, ?_, ?_, ?_⟩
  · intro d hd
    rw [initStorage_diagonals] at hd
    rw [mem_initStorage_storage]
    exact ⟨d, hd, Or.inl rfl⟩
  · rw [mem_initStorage_storage]
    exact ⟨0, h0, Or.inl rfl⟩
  · rw [initStorage_storageSize]
    simp
  · intro j hj
    rw [initStorage_storageSize]
    exact getD_map_range _ _ _ _ (by omega)
  · rw [initStorage_total, initStorage_storageSize]
  · rw [initStorage_cumul]
    simp
  · intro j hj
    rw [initStorage_cumul, initStorage_storageSize]
    rw [getD_map_range _ _ _ _ (by omega)]
    rw [← List.map_take, List.take_range]
    rw [Nat.min_eq_left (by omega : j ≤ yLen + 1)]

theorem absorbBucket_diags_mono (minD maxD : Int) (halfBand : Nat)
    (diags storage : List Int) (nPast : Nat) (bucket : List Int) :
    ∀ d ∈ diags, d ∈ (absorbBucket minD maxD halfBand diags storage nPast bucket).1 := by
  induction bucket generalizing diags storage nPast with
  | nil => exact fun d hd => hd
  | cons seed rest ih =>
    intro d hd
    rw [absorbBucket, List.foldl_cons]
    refine ih _ _ _ d ?_
    rw [mem_unionSorted]
    exact Or.inl hd

theorem absorbLoop_diags_mono (kt : Int) (maxSize diagSize : Nat) (minD maxD : Int)
    (halfBand : Nat) (buckets : List (Nat × List Int)) (st : AbsorbState) :
    ∀ d ∈ st.diags,
      d ∈ (absorbLoop kt maxSize diagSize minD maxD halfBand buckets st).diags := by
  induction buckets generalizing st with
  | nil => exact fun d hd => hd
  | cons b rest ih =>
    obtain ⟨cnt, bucket⟩ := b
    intro d hd
    simp only [absorbLoop]
    split_ifs with h1 h2 h3
    · exact hd
    · exact hd
    all_goals
      exact ih ⟨_, _, _, _, _⟩ d (absorbBucket_diags_mono minD maxD halfBand
        st.diags st.storageDiags st.nPastThreshold bucket d hd)

theorem sparseAbsorbState_zero_mem (xTok yTok : List (Option Nat))
    (kmerLen bandSize : Nat) (kt : Int) (cellSize maxSize : Nat) :
    (0 : Int) ∈ (sparseAbsorbState xTok yTok kmerLen bandSize kt cellSize
      maxSize).diags := by
  rw [sparseAbsorbState]
  exact absorbLoop_diags_mono _ _ _ _ _ _ _ _ 0 (by simp)

theorem mem_fullDiagonals (x y : Nat) (d : Int) :
    d ∈ fullDiagonals x y ↔ -(y : Int) ≤ d ∧ d ≤ (x : Int) := by
  rw [fullDiagonals, List.mem_map]
  constructor
  · rintro ⟨k, hk, rfl⟩
    rw [List.mem_range] at hk
    exact ⟨by omega, by omega⟩
  · rintro ⟨h1, h2⟩
    refine ⟨(d + (y : Int)).toNat, ?_, by omega⟩
    rw [List.mem_range]
    omega

/-- Claim C3: after envelope initialisation (`initFull` or `initSparse`) the
envelope is sound: every compute diagonal is a storage diagonal, diagonal 0 is
present in the storage set, and for every column `j ≤ yLen` the storage
bookkeeping is exact: `storageSize[j]` counts the storage diagonals
intersecting column `j` (`intersectsDiag`, modelled from the spec contract for
the missing `diagenv.h`), `totalStorageSize` is their sum and
`cumulStorageSize[j]` the prefix sum. -/
theorem claim_C3_envelope_soundness :
    (∀ xLen yLen : Nat,
      (∀ d ∈ (initFull xLen yLen).diagonals,
        d ∈ (initFull xLen yLen).storageDiagonals) ∧
      (0 : Int) ∈ (initFull xLen yLen).storageDiagonals ∧
      (∀ j, j ≤ yLen → (initFull xLen yLen).storageSize.getD j 0 =
        ((initFull xLen yLen).storageDiagonals.filter
          (intersectsDiag xLen j)).length) ∧
      (initFull xLen yLen).totalStorageSize =
        (initFull xLen yLen).storageSize.sum ∧
      (∀ j, j ≤ yLen → (initFull xLen yLen).cumulStorageSize.getD j 0 =
        ((initFull xLen yLen).storageSize.take j).sum)) ∧
    (∀ (xTok yTok : List (Option Nat)) (kmerLen bandSize : Nat) (kt : Int)
      (cellSize maxSize : Nat),
      (∀ d ∈ (initSparse xTok yTok kmerLen bandSize kt cellSize maxSize).diagonals,
        d ∈ (initSparse xTok yTok kmerLen bandSize kt cellSize
          maxSize).storageDiagonals) ∧
      (0 : Int) ∈ (initSparse xTok yTok kmerLen bandSize kt cellSize
        maxSize).storageDiagonals ∧
      (∀ j, j ≤ yTok.length →
        (initSparse xTok yTok kmerLen bandSize kt cellSize maxSize).storageSize.getD
            j 0 =
          ((initSparse xTok yTok kmerLen bandSize kt cellSize
            maxSize).storageDiagonals.filter (intersectsDiag xTok.length j)).length) ∧
      (initSparse xTok yTok kmerLen bandSize kt cellSize maxSize).totalStorageSize =
        (initSparse xTok yTok kmerLen bandSize kt cellSize maxSize).storageSize.sum ∧
      (∀ j, j ≤ yTok.length →
        (initSparse xTok yTok kmerLen bandSize kt cellSize
            maxSize).cumulStorageSize.getD j 0 =
          ((initSparse xTok yTok kmerLen bandSize kt cellSize
            maxSize).storageSize.take j).sum)) := by
  have hfull : ∀ xLen yLen : Nat, (0 : Int) ∈ fullDiagonals xLen yLen := by
    intro xLen yLen
    rw [mem_fullDiagonals]
    constructor
    · omega
    · omega
  constructor
  · intro xLen yLen
    obtain ⟨h1, h2, h3, h4, h5, h6, h7⟩ :=
      initStorage_sound xLen yLen (fullDiagonals xLen yLen) (hfull xLen yLen)
    exact ⟨h1, h2, h4, h5, h7⟩
  · intro xTok yTok kmerLen bandSize kt cellSize maxSize
    rw [initSparse]
    split
    · obtain ⟨h1, h2, h3, h4, h5, h6, h7⟩ := initStorage_sound xTok.length
        yTok.length (fullDiagonals xTok.length yTok.length)
        (hfull xTok.length yTok.length)
      exact ⟨h1, h2, h4, h5, h7⟩
    · split
      · obtain ⟨h1, h2, h3, h4, h5, h6, h7⟩ := initStorage_sound xTok.length
          yTok.length (fullDiagonals xTok.length yTok.length)
          (hfull xTok.length yTok.length)
        exact ⟨h1, h2, h4, h5, h7⟩
      · obtain ⟨h1, h2, h3, h4, h5, h6, h7⟩ := initStorage_sound xTok.length
          yTok.length
          ((sparseAbsorbState xTok yTok kmerLen bandSize kt cellSize
            maxSize).diags)
          (sparseAbsorbState_zero_mem xTok yTok kmerLen bandSize kt cellSize
            maxSize)
        exact ⟨h1, h2, h4, h5, h7⟩

/-- Witness for C3 at a concrete full and a concrete sparse envelope. -/
theorem claim_C3_envelope_soundness_witness :
    ((0 : Int) ∈ (initFull 2 3).storageDiagonals ∧
      (1 : Nat) ≤ 3 ∧
      (initFull 2 3).storageSize.getD 1 0 =
        ((initFull 2 3).storageDiagonals.filter (intersectsDiag 2 1)).length) ∧
    ((0 : Int) ∈ (initSparse [some 0, some 0] [some 1, some 1] 1 2 0 1
        1000).storageDiagonals ∧
      (2 : Nat) ≤ ([some 1, some 1] : List (Option Nat)).length ∧
      (initSparse [some 0, some 0] [some 1, some 1] 1 2 0 1
          1000).cumulStorageSize.getD 2 0 =
        ((initSparse [some 0, some 0] [some 1, some 1] 1 2 0 1
          1000).storageSize.take 2).sum) :=
  ⟨⟨(claim_C3_envelope_soundness.1 2 3).2.1, by decide,
    (claim_C3_envelope_soundness.1 2 3).2.2.1 1 (by decide)⟩,
   ⟨(claim_C3_envelope_soundness.2 [some 0, some 0] [some 1, some 1] 1 2 0 1
      1000).2.1, by decide,
    (claim_C3_envelope_soundness.2 [some 0, some 0] [some 1, some 1] 1 2 0 1
      1000).2.2.2.2 2 (by decide)⟩⟩

/-- Claim C6 (amended): each full-envelope guard of `initSparse` is tied to
its k-mer threshold mode.  With a fixed threshold (`kmerThreshold ≥ 0`), a
sequence shorter than `MIN_KMERS_FOR_SPARSE_ENVELOPE * (kmerLen + kmerThreshold)`
yields the full envelope; in memory-bound mode (`kmerThreshold < 0`), a DP
table below the memory budget yields the full envelope; in both cases the
returned envelope holds exactly the diagonals `d` with `-yLen ≤ d ≤ xLen`
(the range is modelled from the spec, `diagenv.h` being absent). -/
theorem claim_C6_full_envelope (xTok yTok : List (Option Nat))
    (kmerLen bandSize : Nat) (kt : Int) (cellSize maxSize : Nat)
    (h : (0 ≤ kt ∧ (xTok.length < 2 * (kmerLen + kt.toNat) ∨
            yTok.length < 2 * (kmerLen + kt.toNat))) ∨
         (kt < 0 ∧ xTok.length * yTok.length * cellSize < maxSize)) :
    initSparse xTok yTok kmerLen bandSize kt cellSize maxSize =
      initFull xTok.length yTok.length ∧
    (∀ d : Int, d ∈ (initSparse xTok yTok kmerLen bandSize kt cellSize
        maxSize).diagonals ↔
      -(yTok.length : Int) ≤ d ∧ d ≤ (xTok.length : Int)) := by
  have heq : initSparse xTok yTok kmerLen bandSize kt cellSize maxSize =
      initFull xTok.length yTok.length := by
    rw [initSparse]
    rcases h with ⟨h1, h2⟩ | ⟨h1, h2⟩
    · rw [if_pos]
      exact ⟨h1, by simpa [minKmersForSparseEnvelope] using h2⟩
    · rw [if_neg, if_pos ⟨h1, h2⟩]
      rintro ⟨hc, -⟩
      omega
  refine ⟨heq, ?_⟩
  intro d
  rw [heq, initFull, initStorage_diagonals]
  exact mem_fullDiagonals _ _ d

/-- Witness for C6: in memory-bound mode a 2 by 2 DP table under a budget of
100 bytes gets the full envelope. -/
theorem claim_C6_full_envelope_witness :
    ((-1 : Int) < 0 ∧
      ([some 0, some 0] : List (Option Nat)).length *
        ([some 0, some 0] : List (Option Nat)).length * 1 < 100) ∧
    initSparse [some 0, some 0] [some 0, some 0] 1 2 (-1) 1 100 = initFull 2 2 :=
  ⟨⟨by decide, by decide⟩,
   (claim_C6_full_envelope [some 0, some 0] [some 0, some 0] 1 2 (-1) 1 100
     (Or.inr ⟨by decide, by decide⟩)).1⟩

/-- Counterexample to C6 as stated: the claim joins the two guard conditions
by a plain disjunction, but the code checks the DP-table-size guard only in
memory-bound mode.  With `kmerThreshold = 0` (fixed-threshold mode), the
sequences `aaaa` and `cccc` (length 4, not "too short" since 4 ≥ 2·(1+0))
share no k-mer; the product `4·4·1 = 16` is far below `maxSize = 1000`, yet
the envelope is the seeded `[0]`, not the full one: it misses diagonal
`-4 ∈ [-yLen, xLen]`. -/
theorem claim_C6_full_envelope_counterexample :
    ([some 0, some 0, some 0, some 0] : List (Option Nat)).length *
      ([some 1, some 1, some 1, some 1] : List (Option Nat)).length * 1 < 1000 ∧
    ((-4 : Int) ∉ (initSparse [some 0, some 0, some 0, some 0]
      [some 1, some 1, some 1, some 1] 1 2 0 1 1000).diagonals) := by
  constructor
  · decide
  · decide

/-! ## Memory-bound absorption (claims C7 and C8) -/

/-- In memory-bound mode the absorption loop maintains the budget on the
tracked storage set: whenever a bucket has been admitted, the tracked storage
diagonal set fits the budget. -/
theorem absorbLoop_budget (kt : Int) (maxSize diagSize : Nat) (minD maxD : Int)
    (halfBand : Nat) (buckets : List (Nat × List Int)) (st : AbsorbState)
    (hkt : kt < 0)
    (hinv : st.foundThreshold = true → st.storageDiags.length * diagSize < maxSize)
    (hfound : (absorbLoop kt maxSize diagSize minD maxD halfBand buckets
      st).foundThreshold = true) :
    (absorbLoop kt maxSize diagSize minD maxD halfBand buckets
      st).storageDiags.length * diagSize < maxSize := by
  induction buckets generalizing st with
  | nil => exact hinv hfound
  | cons b rest ih =>
    obtain ⟨cnt, bucket⟩ := b
    simp only [absorbLoop] at hfound ⊢
    split_ifs at hfound ⊢ with h1 h2
    · exact hinv hfound
    · exact hinv hfound
    · refine ih _ ?_ hfound
      intro hf
      show (absorbBucket minD maxD halfBand st.diags st.storageDiags
        st.nPastThreshold bucket).2.1.length * diagSize < maxSize
      push_neg at h2
      exact h2 hkt

/-- The absorption loop never resets `foundThreshold`. -/
theorem absorbLoop_found_mono (kt : Int) (maxSize diagSize : Nat) (minD maxD : Int)
    (halfBand : Nat) (buckets : List (Nat × List Int)) (st : AbsorbState)
    (h : st.foundThreshold = true) :
    (absorbLoop kt maxSize diagSize minD maxD halfBand buckets
      st).foundThreshold = true := by
  induction buckets generalizing st with
  | nil => exact h
  | cons b rest ih =>
    obtain ⟨cnt, bucket⟩ := b
    simp only [absorbLoop]
    split_ifs with h1 h2 h3
    · exact h
    · exact h
    · exact ih _ rfl
    · exact ih _ h

/-- In memory-bound mode, if `foundThreshold` never became true then no bucket
was ever admitted and the loop state is unchanged. -/
theorem absorbLoop_found_false (kt : Int) (maxSize diagSize : Nat) (minD maxD : Int)
    (halfBand : Nat) (buckets : List (Nat × List Int)) (st : AbsorbState)
    (hkt : kt < 0)
    (h : (absorbLoop kt maxSize diagSize minD maxD halfBand buckets
      st).foundThreshold = false) :
    absorbLoop kt maxSize diagSize minD maxD halfBand buckets st = st := by
  induction buckets generalizing st with
  | nil => rfl
  | cons b rest ih =>
    obtain ⟨cnt, bucket⟩ := b
    simp only [absorbLoop] at h ⊢
    split_ifs at h ⊢ with h1 h2
    · rfl
    · rfl
    · exfalso
      have := absorbLoop_found_mono kt maxSize diagSize minD maxD halfBand rest
        ⟨(absorbBucket minD maxD halfBand st.diags st.storageDiags
            st.nPastThreshold bucket).1,
         (absorbBucket minD maxD halfBand st.diags st.storageDiags
            st.nPastThreshold bucket).2.1,
         (absorbBucket minD maxD halfBand st.diags st.storageDiags
            st.nPastThreshold bucket).2.2,
         cnt, true⟩ rfl
      rw [this] at h
      exact Bool.noConfusion h

/-- Claim C7 (amended): in memory-bound mode (`kmerThreshold < 0`) bucket
absorption stops just before the tracked storage diagonal set would reach the
memory budget, so whenever a threshold was admitted (`foundThreshold`), the
tracked storage set satisfies `size * min(xLen, yLen) * cellSize < maxSize`.
The final envelope's `storageDiagonals` recomputed by `initStorage` add a
one-diagonal halo around the compute set and are not budget-checked, so the
bound does not hold for them (see the counterexample). -/
theorem claim_C7_memory_budget (xTok yTok : List (Option Nat))
    (kmerLen bandSize : Nat) (kt : Int) (cellSize maxSize : Nat)
    (hkt : kt < 0)
    (hfound : (sparseAbsorbState xTok yTok kmerLen bandSize kt cellSize
      maxSize).foundThreshold = true) :
    (sparseAbsorbState xTok yTok kmerLen bandSize kt cellSize
      maxSize).storageDiags.length * (min xTok.length yTok.length * cellSize) <
      maxSize := by
  rw [sparseAbsorbState] at hfound ⊢
  refine absorbLoop_budget _ _ _ _ _ _ _ _ hkt ?_ hfound
  intro hf
  exfalso
  have : (decide (0 ≤ kt)) = true := hf
  rw [decide_eq_true_iff] at this
  omega

/-- Witness for C7: two identical length-8 sequences of pairwise distinct
residues seed only diagonal 0; with a 64-byte budget the first bucket is
admitted (tracked storage 5 diagonals · 8 cells = 40 < 64). -/
theorem claim_C7_memory_budget_witness :
    ((-1 : Int) < 0 ∧
      (sparseAbsorbState witDistinctTok witDistinctTok 1 2 (-1) 1
        64).foundThreshold = true) ∧
    (sparseAbsorbState witDistinctTok witDistinctTok 1 2 (-1) 1
      64).storageDiags.length *
      (min witDistinctTok.length witDistinctTok.length * 1) < 64 :=
  ⟨⟨by decide, by decide⟩,
   claim_C7_memory_budget witDistinctTok witDistinctTok 1 2 (-1) 1 64
     (by decide) (by decide)⟩

/-- Counterexample to C7 as stated: `maxSize` is not a hard upper bound on the
final envelope's storage.  With `xLen = yLen = 4`, `cellSize = 1` and
`maxSize = 1` in memory-bound mode, no bucket can be admitted, the compute set
stays `[0]`, and `initStorage` then builds the storage halo `[-1, 0, 1]`:
`3 · min(4,4) · 1 = 12 ≥ 1 = maxSize`. -/
theorem claim_C7_memory_budget_counterexample :
    (-1 : Int) < 0 ∧
    ¬ (([some 0, some 0, some 0, some 0] : List (Option Nat)).length *
        ([some 1, some 1, some 1, some 1] : List (Option Nat)).length * 1 < 1) ∧
    ¬ ((initSparse [some 0, some 0, some 0, some 0]
        [some 1, some 1, some 1, some 1] 1 2 (-1) 1 1).storageDiagonals.length *
        (min ([some 0, some 0, some 0, some 0] : List (Option Nat)).length
          ([some 1, some 1, some 1, some 1] : List (Option Nat)).length * 1) < 1) := by
  refine ⟨by decide, by decide, by decide⟩

/-- Claim C8: in memory-bound mode, when no k-mer count threshold can be
admitted within the memory budget (`foundThreshold` stays false), the compute
diagonal set stays at `[0]` and the envelope falls back to the minimal storage
diagonal set `[-1, 0, +1]`, with initialisation still completing (the storage
arrays are built for every column). -/
theorem claim_C8_fallback (xTok yTok : List (Option Nat))
    (kmerLen bandSize : Nat) (kt : Int) (cellSize maxSize : Nat)
    (hkt : kt < 0)
    (hmem : ¬ (xTok.length * yTok.length * cellSize < maxSize))
    (hnf : (sparseAbsorbState xTok yTok kmerLen bandSize kt cellSize
      maxSize).foundThreshold = false) :
    (initSparse xTok yTok kmerLen bandSize kt cellSize maxSize).diagonals =
      [0] ∧
    (initSparse xTok yTok kmerLen bandSize kt cellSize
      maxSize).storageDiagonals = [-1, 0, 1] ∧
    (initSparse xTok yTok kmerLen bandSize kt cellSize
      maxSize).storageSize.length = yTok.length + 1 ∧
    (initSparse xTok yTok kmerLen bandSize kt cellSize
      maxSize).cumulStorageSize.length = yTok.length + 1 := by
  have hstate : sparseAbsorbState xTok yTok kmerLen bandSize kt cellSize
      maxSize = ⟨[0], [0], 0,
        if 0 ≤ kt then kt.toNat else 4294967295, decide (0 ≤ kt)⟩ := by
    rw [sparseAbsorbState] at hnf ⊢
    exact absorbLoop_found_false _ _ _ _ _ _ _ _ hkt hnf
  have hsp : initSparse xTok yTok kmerLen bandSize kt cellSize maxSize =
      initStorage xTok.length yTok.length [0] := by
    rw [initSparse, if_neg (by rintro ⟨hc, -⟩; omega), if_neg (by
      rintro ⟨-, hc⟩; exact hmem hc)]
    rw [hstate]
  refine ⟨?_, ?_, ?_, ?_⟩
  · rw [hsp, initStorage_diagonals]
  · rw [hsp]
    show sortedDedup ([(0 : Int)].flatMap (fun d => [d, d - 1, d + 1])) =
      [-1, 0, 1]
    rfl
  · rw [hsp, initStorage_storageSize]
    simp
  · rw [hsp, initStorage_cumul]
    simp

/-- Witness for C8: sequences `aaaa` and `cccc` share no k-mer, so in
memory-bound mode with a 1-byte budget nothing is admitted and the envelope
falls back to compute set `[0]` with storage set `[-1, 0, 1]`. -/
theorem claim_C8_fallback_witness :
    ((-1 : Int) < 0 ∧
      ¬ (([some 0, some 0, some 0, some 0] : List (Option Nat)).length *
          ([some 1, some 1, some 1, some 1] : List (Option Nat)).length * 1 < 1) ∧
      (sparseAbsorbState [some 0, some 0, some 0, some 0]
        [some 1, some 1, some 1, some 1] 1 2 (-1) 1 1).foundThreshold = false) ∧
    (initSparse [some 0, some 0, some 0, some 0]
      [some 1, some 1, some 1, some 1] 1 2 (-1) 1 1).diagonals = [0] ∧
    (initSparse [some 0, some 0, some 0, some 0]
      [some 1, some 1, some 1, some 1] 1 2 (-1) 1 1).storageDiagonals =
        [-1, 0, 1] :=
  ⟨⟨by decide, by decide, by decide⟩,
   (claim_C8_fallback [some 0, some 0, some 0, some 0]
     [some 1, some 1, some 1, some 1] 1 2 (-1) 1 1 (by decide) (by decide)
     (by decide)).1,
   (claim_C8_fallback [some 0, some 0, some 0, some 0]
     [some 1, some 1, some 1, some 1] 1 2 (-1) 1 1 (by decide) (by decide)
     (by decide)).2.1⟩
